import Mathlib

/-!
# Verification of the crypto news scraper core

A shallow embedding, in Lean 4, of the core modules of the
crypto-news-scraper repository:

* `src/core/models.py`        — the `NewsArticle` data model (`generate_id`,
  `get_content_hash`);
* `src/storage/database.py`   — `AsyncNewsDatabase.save_article_batch`
  (dedup-on-write over the `articles` table with `id` PRIMARY KEY and
  `url` UNIQUE, `INSERT OR IGNORE` semantics, per-article error handling);
* `src/processing/content_filter.py` — `ContentFilter.is_valid_article`,
  `enrich_article` and their helpers;
* `src/utils/rate_limiter.py` — `AdaptiveRateLimiter`;
* `src/utils/http_client.py`  — `CircuitBreaker`;
* `src/orchestration/coordinator.py` — `ScrapingCoordinator`.

Modelling conventions:

* Python floats are modelled as rationals (`ℚ`); `datetime` values are
  modelled as rational POSIX seconds, and `str(datetime)` /
  `datetime.isoformat()` as an injective rendering function of that value.
* Async methods are modelled as pure state-passing functions; the
  bounded-concurrency fan-out of a priority tier is modelled by one of its
  linearisations (processing the sources of the tier in list order), which
  is faithful to the observable per-source results because every shared
  mutation is made under a lock / single-threaded event loop in the source.
* Wall-clock readings (`time.time()`, `datetime.now()`) are passed in as an
  explicit `now : ℚ` argument; durations (`processing_time`) are not
  modelled, no claim mentions them.
* `hashlib.md5` is implemented bit-faithfully below (on the UTF-8 bytes of
  the input, digests rendered in lowercase hex).  `hashlib.sha256`, used
  only through equality of digests, is modelled as an injective digest
  function of the normalised pre-image.
-/

namespace Scraper

/-! ## Python string primitives -/

/-- Python `str.lower()` (ASCII case folding, which is what every input in
this code base exercises). -/
def pyLower (s : String) : String := String.mk (s.toList.map Char.toLower)

/-- Python `str.strip()`: remove leading and trailing whitespace. -/
def pyStrip (s : String) : String :=
  String.mk
    (((s.toList.dropWhile Char.isWhitespace).reverse.dropWhile
        Char.isWhitespace).reverse)

/-- Worker for `pySplitWs`: accumulate the current word (reversed). -/
def splitWsGo : List Char → List Char → List String
  | [], acc => if acc.isEmpty then [] else [String.mk acc.reverse]
  | c :: rest, acc =>
    if c.isWhitespace then
      if acc.isEmpty then splitWsGo rest []
      else String.mk acc.reverse :: splitWsGo rest []
    else splitWsGo rest (c :: acc)

/-- Python `str.split()` with no argument: split on runs of whitespace
and drop empty fragments. -/
def pySplitWs (s : String) : List String := splitWsGo s.toList []

/-- Does the character list `hay` start with `need`? -/
def listStartsWith : List Char → List Char → Bool
  | _, [] => true
  | [], _ :: _ => false
  | a :: as, b :: bs => a == b && listStartsWith as bs

/-- Does `need` occur as a contiguous sublist of `hay`?  This is Python's
`needle in haystack` on strings. -/
def listContainsSub (hay need : List Char) : Bool :=
  match hay with
  | [] => need.isEmpty
  | _ :: t => listStartsWith hay need || listContainsSub t need

/-- Python `needle in haystack` (substring containment). -/
def strContains (hay need : String) : Bool :=
  listContainsSub hay.toList need.toList

/-- Python `str.startswith`. -/
def strStartsWith (s pre : String) : Bool :=
  listStartsWith s.toList pre.toList

/-- Remainder of `hay` after the first occurrence of `need`, if any. -/
def dropAfterSub : List Char → List Char → Option (List Char)
  | [], need => if need.isEmpty then some [] else none
  | h :: t, need =>
    if listStartsWith (h :: t) need then some ((h :: t).drop need.length)
    else dropAfterSub t need

/-- Do the given literal segments occur in order inside `hay`?  This is the
semantics of `re.search` on a pattern of literals joined by lazy `.*?`
(the only regex shape in `ContentFilter._is_spam_content`; the refinement
that `.` does not cross a newline is not modelled, no claim observes it). -/
def matchSegments : List String → List Char → Bool
  | [], _ => true
  | seg :: rest, hay =>
    match dropAfterSub hay seg.toList with
    | none => false
    | some hay2 => matchSegments rest hay2

/-! ## MD5 (`hashlib.md5(...).hexdigest()`)

A bit-faithful implementation over `Nat` with explicit `% 2 ^ 32`
reductions, operating on the UTF-8 bytes of the input string. -/

/-- The 64 MD5 round constants `K[i] = floor(2^32 * abs(sin(i + 1)))`. -/
def md5K : List Nat :=
  [3614090360, 3905402710, 606105819, 3250441966, 4118548399, 1200080426,
   2821735955, 4249261313, 1770035416, 2336552879, 4294925233, 2304563134,
   1804603682, 4254626195, 2792965006, 1236535329, 4129170786, 3225465664,
   643717713, 3921069994, 3593408605, 38016083, 3634488961, 3889429448,
   568446438, 3275163606, 4107603335, 1163531501, 2850285829, 4243563512,
   1735328473, 2368359562, 4294588738, 2272392833, 1839030562, 4259657740,
   2763975236, 1272893353, 4139469664, 3200236656, 681279174, 3936430074,
   3572445317, 76029189, 3654602809, 3873151461, 530742520, 3299628645,
   4096336452, 1126891415, 2878612391, 4237533241, 1700485571, 2399980690,
   4293915773, 2240044497, 1873313359, 4264355552, 2734768916, 1309151649,
   4149444226, 3174756917, 718787259, 3951481745]

/-- The 64 MD5 per-round left-rotation amounts. -/
def md5S : List Nat :=
  [7, 12, 17, 22, 7, 12, 17, 22, 7, 12, 17, 22, 7, 12, 17, 22,
   5, 9, 14, 20, 5, 9, 14, 20, 5, 9, 14, 20, 5, 9, 14, 20,
   4, 11, 16, 23, 4, 11, 16, 23, 4, 11, 16, 23, 4, 11, 16, 23,
   6, 10, 15, 21, 6, 10, 15, 21, 6, 10, 15, 21, 6, 10, 15, 21]

/-- 32-bit left rotation on a `Nat` below `2 ^ 32`. -/
def rotl32 (x s : Nat) : Nat :=
  ((x <<< s) ||| (x >>> (32 - s))) % 4294967296

/-- 32-bit bitwise complement. -/
def not32 (x : Nat) : Nat := x ^^^ 4294967295

/-- UTF-8 encoding of one Unicode code point (as byte values). -/
def utf8Char (n : Nat) : List Nat :=
  if n < 128 then [n]
  else if n < 2048 then [192 + n / 64, 128 + n % 64]
  else if n < 65536 then [224 + n / 4096, 128 + (n / 64) % 64, 128 + n % 64]
  else [240 + n / 262144, 128 + (n / 4096) % 64, 128 + (n / 64) % 64, 128 + n % 64]

/-- UTF-8 bytes of a string (the `str.encode()` of Python). -/
def utf8Bytes (s : String) : List Nat :=
  s.toList.flatMap (fun c => utf8Char c.toNat)

/-- MD5 padding: append `0x80`, zero bytes up to 56 mod 64, then the
64-bit little-endian bit length. -/
def md5Pad (msg : List Nat) : List Nat :=
  let bitLen := 8 * msg.length
  let zeros := (64 + 56 - ((msg.length + 1) % 64)) % 64
  msg ++ [128] ++ List.replicate zeros 0 ++
    (List.range 8).map (fun i => (bitLen / 256 ^ i) % 256)

/-- Little-endian 32-bit word `j` of a 64-byte chunk. -/
def md5Word (chunk : List Nat) (j : Nat) : Nat :=
  chunk.getD (4 * j) 0 + 256 * chunk.getD (4 * j + 1) 0 +
    65536 * chunk.getD (4 * j + 2) 0 + 16777216 * chunk.getD (4 * j + 3) 0

/-- One MD5 round `i` acting on the working state `(A, B, C, D)`. -/
def md5Round (chunk : List Nat) (st : Nat × Nat × Nat × Nat) (i : Nat) :
    Nat × Nat × Nat × Nat :=
  let (a, b, c, d) := st
  let (f, g) :=
    if i < 16 then ((b &&& c) ||| (not32 b &&& d), i)
    else if i < 32 then ((d &&& b) ||| (not32 d &&& c), (5 * i + 1) % 16)
    else if i < 48 then (b ^^^ c ^^^ d, (3 * i + 5) % 16)
    else (c ^^^ (b ||| not32 d), (7 * i) % 16)
  let f2 := (f + a + md5K.getD i 0 + md5Word chunk g) % 4294967296
  (d, (b + rotl32 f2 (md5S.getD i 0)) % 4294967296, b, c)

/-- Process one 64-byte chunk, updating the four 32-bit accumulators. -/
def md5Chunk (acc : Nat × Nat × Nat × Nat) (chunk : List Nat) :
    Nat × Nat × Nat × Nat :=
  let (a0, b0, c0, d0) := acc
  let (a, b, c, d) := (List.range 64).foldl (md5Round chunk) (a0, b0, c0, d0)
  ((a0 + a) % 4294967296, (b0 + b) % 4294967296,
   (c0 + c) % 4294967296, (d0 + d) % 4294967296)

/-- Little-endian bytes of a 32-bit word. -/
def le32Bytes (w : Nat) : List Nat :=
  [w % 256, (w / 256) % 256, (w / 65536) % 256, (w / 16777216) % 256]

/-- Lowercase hex digit. -/
def hexDigit (n : Nat) : Char :=
  "0123456789abcdef".toList.getD n '0'

/-- Lowercase hex rendering of a byte list. -/
def bytesToHex (bs : List Nat) : String :=
  String.mk (bs.flatMap (fun b => [hexDigit (b / 16), hexDigit (b % 16)]))

/-- `hashlib.md5(s.encode()).hexdigest()`. -/
def md5Hexdigest (s : String) : String :=
  let padded := md5Pad (utf8Bytes s)
  let chunks := (List.range (padded.length / 64)).map
    (fun i => (padded.drop (64 * i)).take 64)
  let (a, b, c, d) :=
    chunks.foldl md5Chunk (1732584193, 4023233417, 2562383102, 271733878)
  bytesToHex (le32Bytes a ++ le32Bytes b ++ le32Bytes c ++ le32Bytes d)

/-! ## Data model (`src/core/models.py`) -/

/-- The `SourceType` enum of `core/models.py`. -/
inductive SourceType where
  | rss | api | web | social | reddit
  | google_news_rss | google_news_web | google_news_combined
  | telegram_web | telegram_api
  deriving DecidableEq, Repr

/-- The `.value` string of a `SourceType` member. -/
def SourceType.val : SourceType → String
  | .rss => "rss"
  | .api => "api"
  | .web => "web"
  | .social => "social"
  | .reddit => "reddit"
  | .google_news_rss => "google_news_rss"
  | .google_news_web => "google_news_web"
  | .google_news_combined => "google_news_combined"
  | .telegram_web => "telegram_web"
  | .telegram_api => "telegram_api"

/-- Rendering of a `datetime` value (modelled as rational POSIX seconds) by
Python's `str` / `f"{...}"`.  Only its functional dependence on the
timestamp value is observable in this development, so the exact
`YYYY-MM-DD HH:MM:SS` formatting is abstracted to an injective rendering. -/
def pyStrTimestamp (t : ℚ) : String :=
  toString t.num ++ "@" ++ toString t.den

/-- Rendering of `datetime.isoformat()`; same abstraction as
`pyStrTimestamp`. -/
def pyIsoformat (t : ℚ) : String := pyStrTimestamp t

/-- The `NewsArticle` dataclass of `core/models.py`, after
`__post_init__` (so `id` is non-empty and `title`/`content` stripped).

Two fields model Python dynamic typing for malformed inputs:
`source_type = none` stands for a value that is not a `SourceType` member
(so that `article.source_type.value` raises `AttributeError`), and a
`none` entry in `tags` stands for a non-string tag (so that
`" ".join(article.tags)` raises `TypeError`). -/
structure MArticle where
  id : String
  title : String
  content : String
  url : String
  source : String
  timestamp : ℚ
  author : Option String := none
  category : Option String := none
  sentiment : Option ℚ := none
  relevance_score : Option ℚ := none
  source_type : Option SourceType := some .rss
  tags : List (Option String) := []
  metadata : List (String × String) := []
  deriving DecidableEq, Repr

/-- `NewsArticle.generate_id`: the first 16 hex characters of the MD5 of
`f"{self.url}{self.timestamp}{self.source}"`. -/
def generate_id (a : MArticle) : String :=
  (md5Hexdigest (a.url ++ pyStrTimestamp a.timestamp ++ a.source)).take 16

/-- `NewsArticle.get_content_hash`: SHA-256 of the lowercased, stripped
`title + content`.  Only equality of digests is ever observed, so the
digest function is modelled as the (injective) normalised pre-image
itself. -/
def get_content_hash (a : MArticle) : String :=
  pyStrip (pyLower (a.title ++ a.content))

/-! ## Association lists as Python dicts

Python 3.7+ dicts preserve insertion order; an update of an existing key
keeps its position, a new key is appended. -/

/-- `d[k] = v` on a Python dict. -/
def dictUpsert {α : Type} (m : List (String × α)) (k : String) (v : α) :
    List (String × α) :=
  if m.any (fun p => p.1 == k) then
    m.map (fun p => if p.1 == k then (k, v) else p)
  else m ++ [(k, v)]

/-- `d.update(d2)` on Python dicts. -/
def dictUpdate {α : Type} (m : List (String × α)) (m2 : List (String × α)) :
    List (String × α) :=
  m2.foldl (fun acc p => dictUpsert acc p.1 p.2) m

/-! ## Article store (`src/storage/database.py`)

The `articles` table (`id TEXT PRIMARY KEY`, `url TEXT UNIQUE NOT NULL`)
is modelled as a list of rows in insertion order.  The auxiliary
`article_metadata` / `article_tags` tables are not modelled: no claim
observes them.  The `ROLLBACK` branch of `save_article_batch` is
unreachable in the model because the only modelled failure — evaluating
`article.source_type.value` on a malformed member while binding the
statement parameters — is caught by the per-article `except` inside the
loop, and the terminal `COMMIT` of an in-memory model cannot fail. -/

/-- A persisted row of the `articles` table. -/
structure Row where
  id : String
  title : String
  content : String
  url : String
  source : String
  timestamp : ℚ
  relevance_score : Option ℚ
  source_type : String
  content_hash : String
  deriving DecidableEq, Repr

/-- The row written for an article (given the `.value` of its
`source_type`, whose evaluation is the modelled raise point). -/
def rowOf (a : MArticle) (stv : String) : Row :=
  { id := a.id, title := a.title, content := a.content, url := a.url,
    source := a.source, timestamp := a.timestamp,
    relevance_score := a.relevance_score, source_type := stv,
    content_hash := get_content_hash a }

/-- Does inserting `a` conflict with an existing row (`id` primary key or
`url` unique constraint)?  `INSERT OR IGNORE` skips the row exactly in
this case (`result.rowcount == 0`). -/
def conflicts (db : List Row) (a : MArticle) : Bool :=
  db.any (fun r => r.id == a.id || r.url == a.url)

/-- The counters returned by `save_article_batch`. -/
structure SaveCounters where
  new : Nat
  duplicates : Nat
  errors : Nat
  deriving DecidableEq, Repr

/-- The body of the `for article in articles` loop of
`save_article_batch`: each article either raises while its parameters are
bound (caught per-article, counted in `errors`), is skipped by
`INSERT OR IGNORE` (counted in `duplicates`), or is inserted (counted in
`new`). -/
def saveLoop : List Row → List MArticle → SaveCounters × List Row
  | db, [] => (⟨0, 0, 0⟩, db)
  | db, a :: rest =>
    match a.source_type with
    | none =>
      let r := saveLoop db rest
      ({ r.1 with errors := r.1.errors + 1 }, r.2)
    | some st =>
      if conflicts db a then
        let r := saveLoop db rest
        ({ r.1 with duplicates := r.1.duplicates + 1 }, r.2)
      else
        let r := saveLoop (db ++ [rowOf a st.val]) rest
        ({ r.1 with new := r.1.new + 1 }, r.2)

/-- `AsyncNewsDatabase.save_article_batch`: one transaction over the whole
batch, returning `{'new': …, 'duplicates': …, 'errors': …}` and the
resulting table. -/
def save_article_batch (db : List Row) (articles : List MArticle) :
    SaveCounters × List Row :=
  saveLoop db articles

/-! ## Content filter (`src/processing/content_filter.py`) -/

/-- The configuration read by `ContentFilter.__init__` (keyword list raw,
lowercased on load; quality-control sub-dict flattened). -/
structure FilterConfig where
  crypto_keywords : List String := []
  blacklisted_domains : List String := []
  min_content_length : Nat := 50
  max_content_length : Nat := 50000
  min_keyword_matches : Nat := 1
  minimum_word_count : Nat := 10
  deriving Repr

/-- `ContentFilter._load_crypto_keywords`: the lowercased keyword set.
Python set iteration is over distinct members; the insertion-ordered
dedup is one admissible iteration order (only the count of matching
members is ever used). -/
def loadedKeywords (cfg : FilterConfig) : List String :=
  (cfg.crypto_keywords.map pyLower).dedup

/-- The mutable per-filter state: the `recent_hashes` cache (insertion
order retained; Python's `set` iteration order is abstracted to it) and
its capacity bound. -/
structure FilterState where
  recent_hashes : List String := []
  hash_cache_size : Nat := 10000
  deriving Repr

/-- `ContentFilter._validate_basic_fields`. -/
def validate_basic_fields (a : MArticle) : Bool :=
  if a.title == "" || (pyStrip a.title).length < 10 then false
  else if a.url == "" ||
      !(strStartsWith a.url "http://" || strStartsWith a.url "https://") then
    false
  else if a.source == "" then false
  else true

/-- `ContentFilter._validate_content_length`. -/
def validate_content_length (cfg : FilterConfig) (a : MArticle) : Bool :=
  let len := a.content.length
  cfg.min_content_length ≤ len && len ≤ cfg.max_content_length

/-- The `netloc` of `urllib.parse.urlparse`, for URLs of the shape this
code base feeds it (`scheme://host/…`): the text between `//` and the
next `/`, `?` or `#`; empty when the URL has no `//`. -/
def urlNetloc (url : String) : String :=
  match dropAfterSub url.toList "//".toList with
  | none => ""
  | some rest =>
    String.mk (rest.takeWhile (fun c => c ≠ '/' && c ≠ '?' && c ≠ '#'))

/-- `ContentFilter._is_blacklisted_domain` (its internal `try` never
fires in the model; `urlparse` does not raise on any modelled input). -/
def is_blacklisted_domain (cfg : FilterConfig) (url : String) : Bool :=
  let domain := pyLower (urlNetloc url)
  cfg.blacklisted_domains.any (fun b => strContains domain b)

/-- Python `" ".join(tags)`: raises `TypeError` when some element is not a
string (modelled by a `none` entry). -/
def pyJoinTags : List (Option String) → Except String String
  | [] => .ok ""
  | some t :: rest => do
    let r ← pyJoinTags rest
    .ok (if rest.isEmpty then t else t ++ " " ++ r)
  | none :: _ => .error "TypeError: expected str instance"

/-- `ContentFilter._is_crypto_relevant`: count the distinct lowercased
keywords occurring in the lowercased `title + " " + content`, add the
count of those occurring in the joined tag text, and compare with
`required_keywords_count`.  The tag join is the one raise point inside
`is_valid_article`. -/
def is_crypto_relevant (cfg : FilterConfig) (a : MArticle) :
    Except String Bool :=
  let text := pyLower (a.title ++ " " ++ a.content)
  let hits := (loadedKeywords cfg).countP (fun k => strContains text k)
  if a.tags.isEmpty then
    .ok (decide (cfg.min_keyword_matches ≤ hits))
  else do
    let tagText ← pyJoinTags a.tags
    let tagHits :=
      (loadedKeywords cfg).countP (fun k => strContains (pyLower tagText) k)
    .ok (decide (cfg.min_keyword_matches ≤ hits + tagHits))

/-- `ContentFilter._has_excessive_repetition`: a single lowercased word
making up more than 20% of at least 10 words.  The Python comparison is
against the float `len(words) * 0.2`; it is modelled exactly over ℚ. -/
def has_excessive_repetition (content : String) : Bool :=
  let words := pySplitWs (pyLower content)
  if words.length < 10 then false
  else
    let maxCount := (words.dedup.map (fun w => words.count w)).foldr max 0
    decide ((words.length : ℚ) * (2 / 10) < (maxCount : ℚ))

/-- The six spam regexes of `ContentFilter._is_spam_content`, decomposed
into their literal segments (joined in the source by lazy `.*?`). -/
def spamSegments : List (List String) :=
  [["click here", "to"], ["buy now"], ["limited time", "offer"],
   ["act now"], ["subscribe", "to", "newsletter"],
   ["follow", "us", "on", "social"]]

/-- `ContentFilter._is_spam_content`: two or more spam patterns match the
lowercased content. -/
def is_spam_content (content : String) : Bool :=
  let lower := (pyLower content).toList
  2 ≤ spamSegments.countP (fun segs => matchSegments segs lower)

/-- `ContentFilter._validate_content_quality`. -/
def validate_content_quality (cfg : FilterConfig) (a : MArticle) : Bool :=
  if a.content == "" then true
  else
    let content := pyStrip a.content
    if (pySplitWs content).length < cfg.minimum_word_count then false
    else if has_excessive_repetition content then false
    else if is_spam_content content then false
    else true

/-- `ContentFilter._is_duplicate_content`: membership in the
`recent_hashes` cache; on a miss the hash is added and, over capacity,
the cache is cut down to its most recent half (the `set(list(...))`
eviction of the source, with the set's iteration order abstracted to
insertion order). -/
def is_duplicate_content (st : FilterState) (a : MArticle) :
    Bool × FilterState :=
  let h := get_content_hash a
  if st.recent_hashes.contains h then (true, st)
  else
    let hs := st.recent_hashes ++ [h]
    let hs2 :=
      if st.hash_cache_size < hs.length then
        hs.drop (hs.length - st.hash_cache_size / 2)
      else hs
    (false, { st with recent_hashes := hs2 })

/-- The `try` body of `ContentFilter.is_valid_article`: the six checks in
source order, short-circuiting to `False`; `_is_crypto_relevant` is the
raise point, propagated to the caller of the body. -/
def validationBody (cfg : FilterConfig) (st : FilterState) (a : MArticle) :
    Except String (Bool × FilterState) := do
  if !validate_basic_fields a then return (false, st)
  if !validate_content_length cfg a then return (false, st)
  if is_blacklisted_domain cfg a.url then return (false, st)
  let relevant ← is_crypto_relevant cfg a
  if !relevant then return (false, st)
  if !validate_content_quality cfg a then return (false, st)
  let (dup, st') := is_duplicate_content st a
  if dup then return (false, st')
  return (true, st')

/-- `ContentFilter.is_valid_article`: the body under the blanket
`except`, which logs and returns `False` (leaving the cache as it was at
the raise point — no mutation precedes the raise point in the source). -/
def is_valid_article (cfg : FilterConfig) (st : FilterState) (a : MArticle) :
    Bool × FilterState :=
  match validationBody cfg st a with
  | .ok r => r
  | .error _ => (false, st)

/-- `ContentFilter._calculate_relevance_score`: keyword density ×100,
+10 per keyword hit in the title, a linearly decaying recency bonus up to
+5, clamped into [0, 10]. -/
def calculate_relevance_score (cfg : FilterConfig) (now : ℚ) (a : MArticle) :
    ℚ :=
  let text := pyLower (a.title ++ " " ++ a.content)
  let keywordMatches := (loadedKeywords cfg).countP (fun k => strContains text k)
  let textLength := (pySplitWs text).length
  let score1 : ℚ :=
    if 0 < textLength then (keywordMatches : ℚ) / (textLength : ℚ) * 100 else 0
  let titleMatches :=
    (loadedKeywords cfg).countP (fun k => strContains (pyLower a.title) k)
  let score2 : ℚ := score1 + (titleMatches : ℚ) * 10
  let ageHours : ℚ := (now - a.timestamp) / 3600
  let score3 : ℚ := if ageHours < 24 then score2 + (24 - ageHours) / 24 * 5 else score2
  min 10 (max 0 score3)

/-- `ContentFilter.enrich_article`: fill in a missing
`relevance_score`, attach the content-analysis metadata and the
processing timestamp.  The `except` path of the source is unreachable in
the model (no step of the pure transform raises). -/
def enrich_article (cfg : FilterConfig) (now : ℚ) (a : MArticle) : MArticle :=
  let a1 :=
    if a.relevance_score.isNone then
      { a with relevance_score := some (calculate_relevance_score cfg now a) }
    else a
  let a2 :=
    if a1.content == "" then a1
    else
      let text := pyLower (a1.title ++ " " ++ a1.content)
      let m1 := dictUpsert a1.metadata "word_count"
        (toString (pySplitWs a1.content).length)
      let m2 := dictUpsert m1 "char_count" (toString a1.content.length)
      let m3 := dictUpsert m2 "crypto_keyword_count"
        (toString ((loadedKeywords cfg).countP (fun k => strContains text k)))
      { a1 with metadata := m3 }
  { a2 with metadata := dictUpsert a2.metadata "processed_at" (pyIsoformat now) }

/-! ## Adaptive rate limiter (`src/utils/rate_limiter.py`)

`time.time()` readings are the explicit `now` argument; each
`record_success` / `record_failure` call observes a single instant. -/

/-- The state of an `AdaptiveRateLimiter`. -/
structure AdaptiveRateLimiter where
  current_rate : ℚ := 1
  min_rate : ℚ := 1 / 10
  max_rate : ℚ := 10
  success_count : Nat := 0
  failure_count : Nat := 0
  last_adjustment : ℚ := 0
  adjustment_interval : ℚ := 60
  deriving DecidableEq, Repr

/-- `AdaptiveRateLimiter._maybe_adjust_rate`: every
`adjustment_interval`, with at least 10 samples, scale the rate by the
success ratio band and reset the counters. -/
def maybe_adjust_rate (rl : AdaptiveRateLimiter) (now : ℚ) :
    AdaptiveRateLimiter :=
  if now - rl.last_adjustment < rl.adjustment_interval then rl
  else
    let total := rl.success_count + rl.failure_count
    if total < 10 then rl
    else
      let success_rate : ℚ := (rl.success_count : ℚ) / (total : ℚ)
      let newRate :=
        if 95 / 100 < success_rate then
          min rl.max_rate (rl.current_rate * (12 / 10))
        else if success_rate < 8 / 10 then
          max rl.min_rate (rl.current_rate * (8 / 10))
        else rl.current_rate
      { rl with current_rate := newRate, success_count := 0,
                failure_count := 0, last_adjustment := now }

/-- `AdaptiveRateLimiter.record_success`. -/
def record_success (rl : AdaptiveRateLimiter) (now : ℚ) :
    AdaptiveRateLimiter :=
  maybe_adjust_rate { rl with success_count := rl.success_count + 1 } now

/-- `AdaptiveRateLimiter.record_failure`: count the failure, halve the
rate immediately on a rate-limit signal (floored at `min_rate`), then run
the periodic adjustment. -/
def record_failure (rl : AdaptiveRateLimiter) (now : ℚ)
    (is_rate_limit : Bool) : AdaptiveRateLimiter :=
  let rl1 := { rl with failure_count := rl.failure_count + 1 }
  let rl2 :=
    if is_rate_limit then
      { rl1 with current_rate := max rl1.min_rate (rl1.current_rate * (1 / 2)) }
    else rl1
  maybe_adjust_rate rl2 now

/-! ## Circuit breaker (`src/utils/http_client.py`) -/

/-- The `CircuitState` enum (`open` is a Lean keyword, hence `opened`). -/
inductive CircuitState where
  | closed | opened | halfOpen
  deriving DecidableEq, Repr

/-- `CircuitBreakerConfig`. -/
structure CircuitBreakerConfig where
  failure_threshold : Nat := 5
  recovery_timeout : ℚ := 60
  half_open_max_calls : Nat := 3
  deriving DecidableEq, Repr

/-- The mutable state of a `CircuitBreaker`. -/
structure CircuitBreaker where
  cfg : CircuitBreakerConfig := {}
  failure_count : Nat := 0
  last_failure_time : Option ℚ := none
  state : CircuitState := .closed
  half_open_calls : Nat := 0
  deriving DecidableEq, Repr

/-- Outcome of `CircuitBreaker.call`: the two fail-fast exceptions, or an
invocation of the wrapped function (which then succeeded or raised). -/
inductive CallResult where
  | blockedOpen
  | blockedHalfOpen
  | invoked (ok : Bool)
  deriving DecidableEq, Repr

/-- `CircuitBreaker._should_attempt_reset` (the `and` of the source is
falsy on `last_failure_time = None`). -/
def should_attempt_reset (cb : CircuitBreaker) (now : ℚ) : Bool :=
  match cb.last_failure_time with
  | none => false
  | some t => cb.cfg.recovery_timeout ≤ now - t

/-- `CircuitBreaker._on_success`. -/
def on_success (cb : CircuitBreaker) : CircuitBreaker :=
  { cb with failure_count := 0,
            state := if cb.state = .halfOpen then .closed else cb.state }

/-- `CircuitBreaker._on_failure` (the source reads `time.time()` here;
the model reuses the instant of the enclosing call). -/
def on_failure (cb : CircuitBreaker) (now : ℚ) : CircuitBreaker :=
  let fc := cb.failure_count + 1
  { cb with failure_count := fc, last_failure_time := some now,
            state := if cb.cfg.failure_threshold ≤ fc then .opened else cb.state }

/-- `CircuitBreaker.call`, with the wrapped function's behaviour supplied
as the boolean `fnOk` (true: returns, false: raises). -/
def cb_call (cb : CircuitBreaker) (now : ℚ) (fnOk : Bool) :
    CallResult × CircuitBreaker :=
  let admitted : Option CircuitBreaker :=
    match cb.state with
    | .opened =>
      if should_attempt_reset cb now then
        some { cb with state := .halfOpen, half_open_calls := 0 }
      else none
    | _ => some cb
  match admitted with
  | none => (.blockedOpen, cb)
  | some cb1 =>
    let probed : Option CircuitBreaker :=
      match cb1.state with
      | .halfOpen =>
        if cb1.cfg.half_open_max_calls ≤ cb1.half_open_calls then none
        else some { cb1 with half_open_calls := cb1.half_open_calls + 1 }
      | _ => some cb1
    match probed with
    | none => (.blockedHalfOpen, cb1)
    | some cb2 =>
      if fnOk then (.invoked true, on_success cb2)
      else (.invoked false, on_failure cb2 now)

/-! ## Scraping coordinator (`src/orchestration/coordinator.py`)

Per-source scraping is an external collaborator (`ScraperFactory`,
`scraper.validate_source`, `scraper.scrape_articles`): its behaviour is a
datum of each modelled source.  The `except` of
`_scrape_and_process_source` (and the `return_exceptions=True` safety net
of `_process_priority_tier`) turn any raise into a failed per-source
entry. -/

/-- The behaviour of one source's external scraping pipeline. -/
inductive SourceBehavior where
  /-- `ScraperFactory.create_scraper` returned `None`. -/
  | createFails
  /-- `scraper.validate_source()` returned `False`. -/
  | validateFails
  /-- some step of the pipeline raised with this message. -/
  | raises (msg : String)
  /-- `scraper.scrape_articles` returned these raw articles. -/
  | scrapes (articles : List MArticle)
  deriving DecidableEq, Repr

/-- One configured source, as consumed by the coordinator. -/
structure MSource where
  name : String
  enabled : Bool := true
  priority : ℤ := 5
  behavior : SourceBehavior := .scrapes []
  deriving DecidableEq, Repr

/-- A per-source result dict.  Keys absent from a given Python dict are
modelled by the value the coordinator's `r.get(key, 0)` accesses read
for them (`0` / counts absent on failure entries). -/
structure SourceResult where
  success : Bool
  error : Option String := none
  articles_scraped : Nat := 0
  articles_recent : Nat := 0
  articles_valid : Nat := 0
  new_articles : Nat := 0
  duplicates : Nat := 0
  errors : Nat := 0
  deriving DecidableEq, Repr

/-- The failure entry built both by the `except` of
`_scrape_and_process_source` and by `_process_priority_tier` for a task
that raised. -/
def failedResult (msg : String) : SourceResult :=
  { success := false, error := some msg }

/-- The shared mutable state the per-source pipelines thread through one
run: the article store and the content filter's dedup cache. -/
structure WorldState where
  db : List Row := []
  filter : FilterState := {}
  deriving Repr

/-- `ScrapingCoordinator._scrape_and_process_source`: create and validate
the scraper, scrape, cut off by the lookback window, filter + enrich,
batch-persist, and report counts; any raise becomes a failure entry. -/
def scrape_and_process_source (cfg : FilterConfig) (now : ℚ)
    (hours_back : Nat) (st : WorldState) (src : MSource) :
    SourceResult × WorldState :=
  match src.behavior with
  | .createFails => (failedResult "Failed to create scraper", st)
  | .validateFails => (failedResult "Source validation failed", st)
  | .raises msg => (failedResult msg, st)
  | .scrapes raw =>
    if raw.isEmpty then
      ({ success := true }, st)
    else
      let cutoff : ℚ := now - (hours_back : ℚ) * 3600
      let recent := raw.filter (fun a => cutoff ≤ a.timestamp)
      let step := fun (acc : List MArticle × FilterState) (a : MArticle) =>
        let (ok, fs') := is_valid_article cfg acc.2 a
        if ok then (acc.1 ++ [enrich_article cfg now a], fs')
        else (acc.1, fs')
      let (valid, fs) := recent.foldl step ([], st.filter)
      let (counters, db') :=
        if valid.isEmpty then (⟨0, 0, 0⟩, st.db)
        else save_article_batch st.db valid
      ({ success := true, articles_scraped := raw.length,
         articles_recent := recent.length, articles_valid := valid.length,
         new_articles := counters.new, duplicates := counters.duplicates,
         errors := counters.errors },
       { db := db', filter := fs })

/-- The per-source results of one priority tier, in task order (one
linearisation of the semaphore-bounded `asyncio.gather`). -/
def processTierList (cfg : FilterConfig) (now : ℚ) (hours_back : Nat) :
    WorldState → List MSource → List (String × SourceResult) × WorldState
  | st, [] => ([], st)
  | st, src :: rest =>
    let r := scrape_and_process_source cfg now hours_back st src
    let rest' := processTierList cfg now hours_back r.2 rest
    ((src.name, r.1) :: rest'.1, rest'.2)

/-- `ScrapingCoordinator._process_priority_tier`: the tier's task results
collected into the `source_results` dict. -/
def process_priority_tier (cfg : FilterConfig) (now : ℚ) (hours_back : Nat)
    (st : WorldState) (sources : List MSource) :
    List (String × SourceResult) × WorldState :=
  let r := processTierList cfg now hours_back st sources
  (dictUpdate [] r.1, r.2)

/-- Insert a priority into a strictly ascending duplicate-free list. -/
def insertPriority (p : ℤ) : List ℤ → List ℤ
  | [] => [p]
  | q :: qs =>
    if p < q then p :: q :: qs
    else if p = q then q :: qs
    else q :: insertPriority p qs

/-- The ascending list of distinct priorities
(`sorted(sources_by_priority.keys())`). -/
def sortedPriorities (ps : List ℤ) : List ℤ :=
  ps.foldr insertPriority []

/-- The enabled sources of a configuration
(`_group_sources_by_priority` keeps exactly those). -/
def enabledSources (sources : List MSource) : List MSource :=
  sources.filter (fun s => s.enabled)

/-- The priority tiers, ascending, each tier in configuration order
(`defaultdict` grouping preserves insertion order inside a tier). -/
def tiersOf (sources : List MSource) : List (List MSource) :=
  (sortedPriorities ((enabledSources sources).map (fun s => s.priority))).map
    (fun p => (enabledSources sources).filter (fun s => s.priority = p))

/-- The returned `RunResult` dict (`duration` and `timestamp` — pure
wall-clock readings — are not modelled). -/
structure RunResult where
  total_new_articles : Nat
  source_results : List (String × SourceResult)
  hours_back : Nat
  deriving Repr

/-- The tier loop of `run_coordinated_scraping`: `all_results.update(…)`
and `total_new_articles += sum(r.get('new_articles', 0) …)` per tier. -/
def runTiers (cfg : FilterConfig) (now : ℚ) (hours_back : Nat) :
    List (String × SourceResult) × Nat → WorldState → List (List MSource) →
    (List (String × SourceResult) × Nat) × WorldState
  | acc, st, [] => (acc, st)
  | acc, st, tier :: rest =>
    let r := process_priority_tier cfg now hours_back st tier
    let tierNew := (r.1.map (fun p => p.2.new_articles)).sum
    runTiers cfg now hours_back (dictUpdate acc.1 r.1, acc.2 + tierNew) r.2 rest

/-- `ScrapingCoordinator.run_coordinated_scraping`. -/
def run_coordinated_scraping (cfg : FilterConfig) (now : ℚ)
    (st : WorldState) (sources : List MSource) (hours_back : Nat) :
    RunResult × WorldState :=
  let r := runTiers cfg now hours_back ([], 0) st (tiersOf sources)
  ({ total_new_articles := r.1.2, source_results := r.1.1,
     hours_back := hours_back }, r.2)

/-- Which failure message, if any, a source behaviour produces in
`_scrape_and_process_source` (`None` for a behaviour that scrapes). -/
def failsWith : SourceBehavior → Option String
  | .createFails => some "Failed to create scraper"
  | .validateFails => some "Source validation failed"
  | .raises msg => some msg
  | .scrapes _ => none

/-- Replace the behaviour of a source of the given name by "scraped
nothing" — the baseline against which the inertness of a failing source
is stated. -/
def neutralizeOne (key : String) (x : MSource) : MSource :=
  if x.name = key then { x with behavior := .scrapes [] } else x

/-- `neutralizeOne` applied across a source list. -/
def neutralize (key : String) (l : List MSource) : List MSource :=
  l.map (neutralizeOne key)

/-- Pointwise relation between the result entries of a run and those of
the run with one source name neutralised: equal keys, equal values away
from that name, and equal new-article counts everywhere. -/
def tierRel (key : String) (p q : String × SourceResult) : Prop :=
  p.1 = q.1 ∧ (p.1 ≠ key → p.2 = q.2) ∧ p.2.new_articles = q.2.new_articles

/-! ## Concrete instances used by witnesses and counterexamples -/

/-- A well-formed, crypto-relevant article. -/
def artOk : MArticle :=
  { id := "idok", title := "Bitcoin rallies hard today",
    content := "The bitcoin price moved up sharply as traders considered fresh inflows from several large funds during the session",
    url := "https://news.example.com/btc-rally", source := "feedA",
    timestamp := 1000 }

/-- An article whose `source_type` holds a malformed (non-enum) value, so
binding its insert parameters raises. -/
def artBad : MArticle :=
  { id := "idbad", title := "Ether slips in quiet trade",
    content := "Ether drifted lower over the day as volumes stayed thin and desks kept risk small into the weekend close",
    url := "https://news.example.com/eth-slip", source := "feedA",
    timestamp := 1000, source_type := none }

/-- A second well-formed article. -/
def artOk2 : MArticle :=
  { id := "idok2", title := "Solana network update ships",
    content := "Validators adopted the latest client release during the maintenance window while block times held steady throughout",
    url := "https://news.example.com/sol-update", source := "feedB",
    timestamp := 1500 }

/-- An article with a non-string tag: `" ".join(article.tags)` raises. -/
def artBadTags : MArticle :=
  { artOk with
      id := "idtags", url := "https://news.example.com/btc-tags",
      tags := [some "bitcoin", none] }

/-- An article arriving with a pre-set out-of-range relevance score (as
the Reddit scraper produces via `relevance_score=float(post score)`). -/
def artPreScored : MArticle :=
  { artOk with
      id := "idpre", url := "https://news.example.com/btc-pre",
      relevance_score := some 11 }

/-- A filter configuration with one keyword and library defaults. -/
def cfgW : FilterConfig := { crypto_keywords := ["Bitcoin"] }

/-- A distinct article sharing `artOk`'s `(url, timestamp, source)`. -/
def artOkTwin : MArticle :=
  { artOk with id := "idtwin", title := "Completely different headline" }

/-- A rate limiter with 100 recorded successes since its last adjustment
at time 0. -/
def rlDue : AdaptiveRateLimiter :=
  { current_rate := 2, success_count := 100, last_adjustment := 0 }

/-- A circuit breaker one failure away from its threshold. -/
def cbAlmost : CircuitBreaker := { failure_count := 4 }

/-- A source that scrapes nothing. -/
def srcA : MSource := { name := "A", behavior := .scrapes [] }

/-- A higher-priority source whose pipeline raises. -/
def srcB : MSource := { name := "B", priority := 1, behavior := .raises "boom" }

/-- An open circuit breaker that failed at time 100. -/
def cbOpen : CircuitBreaker :=
  { failure_count := 5, last_failure_time := some 100, state := .opened }

/-! ## Theorems -/

/-- C7: once at least `adjustment_interval` has elapsed since the last
adjustment and at least 10 samples have accumulated, the next
`record_success` / `record_failure` call adjusts the rate by the success
ratio band — ×1.2 capped at `max_rate` above 0.95, ×0.8 floored at
`min_rate` below 0.8, unchanged otherwise — and resets both counters and
the adjustment timestamp.  The ratio is the one the source computes, with
the sample being recorded included. -/
theorem c7_periodic_rate_adjustment (rl : AdaptiveRateLimiter) (now : ℚ)
    (hElapsed : rl.adjustment_interval ≤ now - rl.last_adjustment)
    (hSamples : 10 ≤ rl.success_count + rl.failure_count) :
    ((record_success rl now).current_rate =
      (if 95 / 100 <
          ((rl.success_count + 1 : ℕ) : ℚ) /
            ((rl.success_count + 1 + rl.failure_count : ℕ) : ℚ) then
        min rl.max_rate (rl.current_rate * (12 / 10))
      else if ((rl.success_count + 1 : ℕ) : ℚ) /
            ((rl.success_count + 1 + rl.failure_count : ℕ) : ℚ) < 8 / 10 then
        max rl.min_rate (rl.current_rate * (8 / 10))
      else rl.current_rate)
     ∧ (record_success rl now).success_count = 0
     ∧ (record_success rl now).failure_count = 0
     ∧ (record_success rl now).last_adjustment = now)
    ∧ ((record_failure rl now false).current_rate =
      (if 95 / 100 <
          ((rl.success_count : ℕ) : ℚ) /
            ((rl.success_count + (rl.failure_count + 1) : ℕ) : ℚ) then
        min rl.max_rate (rl.current_rate * (12 / 10))
      else if ((rl.success_count : ℕ) : ℚ) /
            ((rl.success_count + (rl.failure_count + 1) : ℕ) : ℚ) < 8 / 10 then
        max rl.min_rate (rl.current_rate * (8 / 10))
      else rl.current_rate)
     ∧ (record_failure rl now false).success_count = 0
     ∧ (record_failure rl now false).failure_count = 0
     ∧ (record_failure rl now false).last_adjustment = now) := by
  have hA : ¬ now - rl.last_adjustment < rl.adjustment_interval :=
    not_lt.mpr hElapsed
  have hB : ¬ rl.success_count + 1 + rl.failure_count < 10 := by omega
  have hC : ¬ rl.success_count + (rl.failure_count + 1) < 10 := by omega
  constructor
  · dsimp only [record_success, maybe_adjust_rate]
    rw [if_neg hA, if_neg hB]
    exact ⟨rfl, rfl, rfl, rfl⟩
  · have h2 : record_failure rl now false =
        maybe_adjust_rate { rl with failure_count := rl.failure_count + 1 } now :=
      rfl
    rw [h2]
    dsimp only [maybe_adjust_rate]
    rw [if_neg hA, if_neg hC]
    exact ⟨rfl, rfl, rfl, rfl⟩

/-- C7 witness: a limiter with 100 successes and a due window adjusts on
the next `record_success` at time 60 and resets its counters. -/
theorem c7_periodic_rate_adjustment_witness :
    rlDue.adjustment_interval ≤ 60 - rlDue.last_adjustment ∧
    10 ≤ rlDue.success_count + rlDue.failure_count ∧
    (record_success rlDue 60).success_count = 0 ∧
    (record_success rlDue 60).last_adjustment = 60 :=
  ⟨by norm_num [rlDue], by norm_num [rlDue],
   (c7_periodic_rate_adjustment rlDue 60 (by norm_num [rlDue])
     (by norm_num [rlDue])).1.2.1,
   (c7_periodic_rate_adjustment rlDue 60 (by norm_num [rlDue])
     (by norm_num [rlDue])).1.2.2.2⟩

/-- C6 counterexample: when the periodic adjustment fires on the same
`record_failure(is_rate_limit=True)` call (window elapsed, ≥10 samples,
high success ratio), the post-call rate is the halved rate ×1.2 — here
12/10 — not the halved rate `max(min_rate, 0.5 × 2) = 1` the claim
promises for every state. -/
theorem c6_immediate_rate_cut_counterexample :
    (record_failure rlDue 60 true).current_rate = 12 / 10 ∧
    max rlDue.min_rate (rlDue.current_rate * (1 / 2)) = 1 ∧
    (12 / 10 : ℚ) ≠ 1 := by
  refine ⟨?_, ?_, by norm_num⟩
  · have h2 : record_failure rlDue 60 true =
        maybe_adjust_rate
          { rlDue with
              failure_count := rlDue.failure_count + 1,
              current_rate := max rlDue.min_rate (rlDue.current_rate * (1 / 2)) }
          60 := rfl
    rw [h2]
    norm_num [maybe_adjust_rate, rlDue, max_def, min_def]
  · norm_num [rlDue, max_def]

/-- C6 (amended): `record_failure` with the rate-limit flag always
applies the ×0.5 cut (floored at `min_rate`) before the periodic check;
whenever the periodic adjustment does not also fire on that same call
(window not yet elapsed, or fewer than 10 samples counting this failure),
the post-call rate is exactly `max(min_rate, 0.5 × rate)`. -/
theorem c6_immediate_rate_cut (rl : AdaptiveRateLimiter) (now : ℚ)
    (h : now - rl.last_adjustment < rl.adjustment_interval ∨
         rl.success_count + rl.failure_count + 1 < 10) :
    (record_failure rl now true).current_rate
      = max rl.min_rate (rl.current_rate * (1 / 2)) := by
  have h2 : record_failure rl now true =
      maybe_adjust_rate
        { rl with
            failure_count := rl.failure_count + 1,
            current_rate := max rl.min_rate (rl.current_rate * (1 / 2)) }
        now := rfl
  rw [h2]
  dsimp only [maybe_adjust_rate]
  rcases h with h | h
  · rw [if_pos h]
  · by_cases hA : now - rl.last_adjustment < rl.adjustment_interval
    · rw [if_pos hA]
    · rw [if_neg hA,
        if_pos (show rl.success_count + (rl.failure_count + 1) < 10 by omega)]

/-- C6 witness: a rate-limit failure at time 10 (window not elapsed)
exactly halves the rate. -/
theorem c6_immediate_rate_cut_witness :
    (10 : ℚ) - rlDue.last_adjustment < rlDue.adjustment_interval ∧
    (record_failure rlDue 10 true).current_rate
      = max rlDue.min_rate (rlDue.current_rate * (1 / 2)) :=
  ⟨by norm_num [rlDue],
   c6_immediate_rate_cut rlDue 10 (Or.inl (by norm_num [rlDue]))⟩

/-- C5: from CLOSED, a failing call opens the breaker exactly when the
consecutive-failure count reaches `failure_threshold` and a successful
call resets the count to zero; while OPEN with less than
`recovery_timeout` elapsed since the last failure, `call` raises the
distinct circuit-open error without invoking the wrapped function and
leaves the breaker untouched. -/
theorem c5_circuit_breaker_fail_fast (cb : CircuitBreaker) (now : ℚ) :
    (cb.state = .closed →
      (((cb_call cb now false).2.state = .opened ↔
          cb.cfg.failure_threshold ≤ cb.failure_count + 1)
        ∧ (cb_call cb now false).1 = .invoked false
        ∧ (cb_call cb now true).2.state = .closed
        ∧ (cb_call cb now true).2.failure_count = 0))
    ∧ (∀ (t : ℚ) (fnOk : Bool), cb.state = .opened →
        cb.last_failure_time = some t → now - t < cb.cfg.recovery_timeout →
        cb_call cb now fnOk = (.blockedOpen, cb)) := by
  constructor
  · intro h
    refine ⟨?_, ?_, ?_, ?_⟩ <;>
      simp only [cb_call, on_failure, on_success, h] <;>
      by_cases hT : cb.cfg.failure_threshold ≤ cb.failure_count + 1 <;>
      simp [hT]
  · intro t fnOk hs hl hlt
    simp only [cb_call, should_attempt_reset, hs, hl]
    rw [if_neg]
    simp only [decide_eq_true_eq, not_le]
    exact hlt

/-- C8: `generate_id` is a function of the `(url, timestamp, source)`
triple alone — articles agreeing on the triple get the same id, whatever
their other fields, on every recomputation. -/
theorem c8_idempotent_identity (a b : MArticle) (hu : a.url = b.url)
    (ht : a.timestamp = b.timestamp) (hs : a.source = b.source) :
    generate_id a = generate_id b := by
  unfold generate_id
  rw [hu, ht, hs]

/-- C8 witness: two articles with different ids, titles and contents but
the same `(url, timestamp, source)` triple generate the same id. -/
theorem c8_idempotent_identity_witness :
    artOk.url = artOkTwin.url ∧ artOk.timestamp = artOkTwin.timestamp ∧
    artOk.source = artOkTwin.source ∧
    generate_id artOk = generate_id artOkTwin :=
  ⟨rfl, rfl, rfl, c8_idempotent_identity artOk artOkTwin rfl rfl rfl⟩

/-- The relevance score of an enriched article whose score was already
set: passed through unchanged. -/
theorem enrich_article_relevance_some (cfg : FilterConfig) (now : ℚ)
    (a : MArticle) (r : ℚ) (h : a.relevance_score = some r) :
    (enrich_article cfg now a).relevance_score = some r := by
  unfold enrich_article
  simp only [h, Option.isNone_some, Bool.false_eq_true, if_false]
  by_cases h2 : a.content == "" <;> simp [h2, h]

/-- The relevance score of an enriched article whose score was unset: the
computed clamped score. -/
theorem enrich_article_relevance_none (cfg : FilterConfig) (now : ℚ)
    (a : MArticle) (h : a.relevance_score = none) :
    (enrich_article cfg now a).relevance_score =
      some (calculate_relevance_score cfg now a) := by
  unfold enrich_article
  simp only [h, Option.isNone_none, if_true]
  by_cases h2 : a.content == "" <;> simp [h2]

/-- C9 counterexample: `enrich_article` passes a pre-set score through
unchanged, so an article arriving with `relevance_score = 11` (as the
Reddit adapter produces from post scores) leaves `enrich_article` with a
score outside `[0, 10]`. -/
theorem c9_relevance_range_counterexample :
    (enrich_article cfgW 0 artPreScored).relevance_score = some 11 ∧
    ¬ ((11 : ℚ) ≤ 10) :=
  ⟨enrich_article_relevance_some cfgW 0 artPreScored 11 rfl, by norm_num⟩

/-- C9 (amended): a pre-set `relevance_score` passes through
`enrich_article` unchanged; when the score is unset on entry, the
enriched article carries the computed score, clamped into `[0, 10]`. -/
theorem c9_relevance_score_range (cfg : FilterConfig) (now : ℚ)
    (a : MArticle) :
    (∀ r, a.relevance_score = some r →
      (enrich_article cfg now a).relevance_score = some r)
    ∧ (a.relevance_score = none →
      ∃ r, (enrich_article cfg now a).relevance_score = some r ∧
        0 ≤ r ∧ r ≤ 10) := by
  refine ⟨fun r h => enrich_article_relevance_some cfg now a r h, fun h => ?_⟩
  refine ⟨calculate_relevance_score cfg now a,
    enrich_article_relevance_none cfg now a h, ?_, ?_⟩
  · exact le_min (by norm_num) (le_max_left _ _)
  · exact min_le_left _ _

/-- C9 witness: enriching a fresh article with no score yields a score
inside `[0, 10]`. -/
theorem c9_relevance_score_range_witness :
    artOk.relevance_score = none ∧
    ∃ r, (enrich_article cfgW 2000 artOk).relevance_score = some r ∧
      0 ≤ r ∧ r ≤ 10 :=
  ⟨rfl, (c9_relevance_score_range cfgW 2000 artOk).2 rfl⟩

/-- C10: `is_valid_article` is total — it returns exactly the boolean of
its validation body when no internal step raises, and catches any raised
error, rejecting the article (`False`) with the dedup cache left as it
was. -/
theorem c10_validation_totality (cfg : FilterConfig) (st : FilterState)
    (a : MArticle) :
    (∀ e, validationBody cfg st a = .error e →
      is_valid_article cfg st a = (false, st))
    ∧ (∀ r, validationBody cfg st a = .ok r →
      is_valid_article cfg st a = r) := by
  constructor
  · intro e h
    unfold is_valid_article
    rw [h]
  · intro r h
    unfold is_valid_article
    rw [h]

/-- C10 witness: an article with a non-string tag makes the crypto
relevance step raise `TypeError`, and `is_valid_article` returns `False`
instead of propagating it. -/
theorem c10_validation_totality_witness :
    validationBody cfgW {} artBadTags =
      .error "TypeError: expected str instance" ∧
    is_valid_article cfgW {} artBadTags = (false, {}) :=
  ⟨rfl, (c10_validation_totality cfgW {} artBadTags).1 _ rfl⟩

/-- C5 witness: a breaker with 4 failures opens on the 5th failing call;
an open breaker 30 s after its last failure blocks a call unchanged. -/
theorem c5_circuit_breaker_fail_fast_witness :
    cbAlmost.state = .closed ∧
    ((cb_call cbAlmost 0 false).2.state = .opened ↔
      cbAlmost.cfg.failure_threshold ≤ cbAlmost.failure_count + 1) ∧
    cbOpen.state = .opened ∧ cbOpen.last_failure_time = some 100 ∧
    (130 : ℚ) - 100 < cbOpen.cfg.recovery_timeout ∧
    cb_call cbOpen 130 true = (.blockedOpen, cbOpen) :=
  ⟨rfl, ((c5_circuit_breaker_fail_fast cbAlmost 0).1 rfl).1, rfl, rfl,
   by norm_num [cbOpen],
   (c5_circuit_breaker_fail_fast cbOpen 130).2 100 true rfl rfl
     (by norm_num [cbOpen])⟩

/-- The batch loop partitions its input into new / duplicate / error
articles, the errors being exactly the malformed ones, and only ever
appends rows — one per new article. -/
theorem saveLoop_spec (l : List MArticle) : ∀ db : List Row,
    ((saveLoop db l).1.new + (saveLoop db l).1.duplicates +
        (saveLoop db l).1.errors = l.length)
    ∧ ((saveLoop db l).1.errors = l.countP (fun a => a.source_type.isNone))
    ∧ ∃ ext, (saveLoop db l).2 = db ++ ext ∧
        ext.length = (saveLoop db l).1.new := by
  induction l with
  | nil =>
    intro db
    exact ⟨rfl, rfl, [], by simp [saveLoop], rfl⟩
  | cons a rest ih =>
    intro db
    rcases ha : a.source_type with _ | st
    · obtain ⟨h1, h2, ext, h3, h4⟩ := ih db
      simp only [saveLoop, ha, List.countP_cons, List.length_cons]
      refine ⟨by omega, ?_, ext, h3, h4⟩
      simp [h2, ha]
    · by_cases hc : conflicts db a = true
      · obtain ⟨h1, h2, ext, h3, h4⟩ := ih db
        simp only [saveLoop, ha, hc, if_true, List.countP_cons,
          List.length_cons]
        refine ⟨by omega, ?_, ext, h3, h4⟩
        simp [h2, ha]
      · obtain ⟨h1, h2, ext, h3, h4⟩ := ih (db ++ [rowOf a st.val])
        rw [Bool.not_eq_true] at hc
        simp only [saveLoop, ha, hc, Bool.false_eq_true, if_false,
          List.countP_cons, List.length_cons]
        refine ⟨by omega, ?_, rowOf a st.val :: ext, ?_, ?_⟩
        · simp [h2, ha]
        · rw [h3, List.append_assoc, List.singleton_append]
        · simp only [List.length_cons, h4]

/-- A conflict with an existing row persists however the table grows. -/
theorem conflicts_append (db ext : List Row) (a : MArticle)
    (h : conflicts db a = true) : conflicts (db ++ ext) a = true := by
  unfold conflicts at *
  rw [List.any_append, h, Bool.true_or]

/-- Saving a batch containing an already-conflicting article behaves
exactly like saving the batch without it, except that the duplicates
counter is one higher; in particular the table is unchanged by that
article and it is never counted as an error. -/
theorem saveLoop_dup_mid (a : MArticle) (st : SourceType)
    (hst : a.source_type = some st) (ys xs : List MArticle) :
    ∀ db : List Row, conflicts db a = true →
      saveLoop db (xs ++ a :: ys) =
        ({ (saveLoop db (xs ++ ys)).1 with
            duplicates := (saveLoop db (xs ++ ys)).1.duplicates + 1 },
          (saveLoop db (xs ++ ys)).2) := by
  induction xs with
  | nil =>
    intro db hc
    simp only [List.nil_append, saveLoop, hst, hc, if_true]
  | cons x xs ih =>
    intro db hc
    rw [List.cons_append, List.cons_append]
    rcases hx : x.source_type with _ | stx
    · simp only [saveLoop, hx]
      rw [ih db hc]
    · by_cases hcx : conflicts db x = true
      · simp only [saveLoop, hx, hcx, if_true]
        rw [ih db hc]
      · rw [Bool.not_eq_true] at hcx
        simp only [saveLoop, hx, hcx, Bool.false_eq_true, if_false]
        rw [ih (db ++ [rowOf x stx.val]) (conflicts_append db _ a hc)]

/-- Once the table holds a row with a given id, later batches never add a
second row with that id. -/
theorem saveLoop_id_count (k : String) (l : List MArticle) :
    ∀ db : List Row, (∃ r ∈ db, r.id = k) →
      ((saveLoop db l).2.filter (fun r => r.id == k)).length
        = (db.filter (fun r => r.id == k)).length := by
  induction l with
  | nil => intro db _; rfl
  | cons a rest ih =>
    intro db h
    rcases ha : a.source_type with _ | st
    · simp only [saveLoop, ha]
      exact ih db h
    · by_cases hc : conflicts db a = true
      · simp only [saveLoop, ha, hc, if_true]
        exact ih db h
      · have hne : ¬ a.id = k := by
          intro hk
          obtain ⟨r, hr, hrk⟩ := h
          apply hc
          unfold conflicts
          rw [List.any_eq_true]
          exact ⟨r, hr, by simp [hrk, hk]⟩
        rw [Bool.not_eq_true] at hc
        simp only [saveLoop, ha, hc, Bool.false_eq_true, if_false]
        rw [ih (db ++ [rowOf a st.val])
          ⟨h.choose, List.mem_append_left _ h.choose_spec.1, h.choose_spec.2⟩]
        simp [List.filter_append, rowOf, hne]

/-- A table holding no row in conflict with `a` holds no row with
`a`'s id. -/
theorem filter_id_nil_of_no_conflict (db : List Row) (a : MArticle)
    (h : conflicts db a = false) :
    db.filter (fun r => r.id == a.id) = [] := by
  rw [List.filter_eq_nil_iff]
  intro r hr
  unfold conflicts at h
  rw [List.any_eq_false] at h
  have := h r hr
  simp only [Bool.or_eq_true, not_or] at this
  simp [this.1]

/-- C4 counterexample: a batch whose middle article raises while its
insert parameters are bound still commits every other article — the
counters report `new = 2, errors = 1`, and two rows are persisted, so
the batch is not rolled back to nothing. -/
theorem c4_batch_atomicity_counterexample :
    (save_article_batch [] [artOk, artBad, artOk2]).1 =
      ⟨2, 0, 1⟩ ∧
    (save_article_batch [] [artOk, artBad, artOk2]).2.map Row.id =
      ["idok", "idok2"] := by
  constructor <;> rfl

/-- C4 (amended): `save_article_batch` handles unexpected per-article
insert errors per row, not by rolling back the batch — the failing
article is skipped and counted in `errors`, every other article still
commits (one appended row per `new`), and the counters partition the
attempted batch; the transaction-level `ROLLBACK` fires only for an
error escaping the per-article handler (e.g. at `COMMIT`), which then
propagates to the caller instead of returning counters. -/
theorem c4_batch_atomicity (db : List Row) (batch : List MArticle) :
    ((save_article_batch db batch).1.new +
        (save_article_batch db batch).1.duplicates +
        (save_article_batch db batch).1.errors = batch.length)
    ∧ ((save_article_batch db batch).1.errors
        = batch.countP (fun a => a.source_type.isNone))
    ∧ ∃ ext, (save_article_batch db batch).2 = db ++ ext ∧
        ext.length = (save_article_batch db batch).1.new :=
  saveLoop_spec batch db

/-- C1: dedup-on-write.  (i) A batch containing an article that already
conflicts with a persisted row (same `id` or same `url`) produces
exactly the counters and table of the batch without that article, plus
one on `duplicates` — never an error, never a second row.  (ii) Once a
row with the article's id is persisted, later batches keep its row count
unchanged.  (iii) Saving the same fresh article in two separate
single-article batches yields `new = 1` then `duplicates = 1`, with
exactly one persisted row for its id. -/
theorem c1_dedup_on_write (db : List Row) (a : MArticle) (st : SourceType)
    (hst : a.source_type = some st) :
    (conflicts db a = true → ∀ xs ys,
      save_article_batch db (xs ++ a :: ys) =
        ({ (save_article_batch db (xs ++ ys)).1 with
            duplicates := (save_article_batch db (xs ++ ys)).1.duplicates + 1 },
          (save_article_batch db (xs ++ ys)).2))
    ∧ ((∃ r ∈ db, r.id = a.id) → ∀ batch,
        ((save_article_batch db batch).2.filter
            (fun r => r.id == a.id)).length
          = (db.filter (fun r => r.id == a.id)).length)
    ∧ (conflicts db a = false →
        (save_article_batch db [a]).1 = ⟨1, 0, 0⟩
        ∧ (save_article_batch (save_article_batch db [a]).2 [a]).1 =
            ⟨0, 1, 0⟩
        ∧ ((save_article_batch (save_article_batch db [a]).2 [a]).2.filter
            (fun r => r.id == a.id)).length = 1) := by
  refine ⟨?_, ?_, ?_⟩
  · intro hc xs ys
    exact saveLoop_dup_mid a st hst ys xs db hc
  · intro h batch
    exact saveLoop_id_count a.id batch db h
  · intro hc
    have hrow : conflicts (db ++ [rowOf a st.val]) a = true := by
      unfold conflicts
      rw [List.any_append, Bool.or_eq_true]
      right
      simp [rowOf]
    have hfirst : save_article_batch db [a] = (⟨1, 0, 0⟩, db ++ [rowOf a st.val]) := by
      simp only [save_article_batch, saveLoop, hst, hc, Bool.false_eq_true,
        if_false]
    have hsecond : save_article_batch (db ++ [rowOf a st.val]) [a] =
        (⟨0, 1, 0⟩, db ++ [rowOf a st.val]) := by
      simp only [save_article_batch, saveLoop, hst, hrow, if_true]
    refine ⟨by rw [hfirst], ?_, ?_⟩
    · rw [hfirst]
      simp only []
      rw [hsecond]
    · rw [hfirst]
      simp only []
      rw [hsecond]
      simp only []
      rw [List.filter_append, filter_id_nil_of_no_conflict db a hc]
      simp [rowOf]

/-! ### Priority grouping -/

/-- Membership in `insertPriority`. -/
theorem mem_insertPriority (p q : ℤ) (l : List ℤ) :
    q ∈ insertPriority p l ↔ q = p ∨ q ∈ l := by
  induction l with
  | nil => simp [insertPriority]
  | cons a as ih =>
    unfold insertPriority
    by_cases h1 : p < a
    · simp [h1]
    · by_cases h2 : p = a
      · subst h2
        rw [if_neg h1, if_pos rfl]
        simp only [List.mem_cons]
        tauto
      · rw [if_neg h1, if_neg h2]
        simp only [List.mem_cons, ih]
        tauto

/-- `insertPriority` preserves strict sortedness. -/
theorem sorted_insertPriority (p : ℤ) (l : List ℤ)
    (h : l.Sorted (· < ·)) : (insertPriority p l).Sorted (· < ·) := by
  induction l with
  | nil => simp [insertPriority]
  | cons a as ih =>
    rw [List.sorted_cons] at h
    unfold insertPriority
    by_cases h1 : p < a
    · rw [if_pos h1, List.sorted_cons]
      refine ⟨?_, List.sorted_cons.mpr h⟩
      intro b hb
      rcases List.mem_cons.mp hb with rfl | hb
      · exact h1
      · exact h1.trans (h.1 b hb)
    · by_cases h2 : p = a
      · rw [if_neg h1, if_pos h2, List.sorted_cons]
        exact h
      · rw [if_neg h1, if_neg h2, List.sorted_cons]
        refine ⟨?_, ih h.2⟩
        intro b hb
        rcases (mem_insertPriority p b as).mp hb with rfl | hb
        · omega
        · exact h.1 b hb

/-- The distinct-priority list is strictly sorted. -/
theorem sortedPriorities_sorted (ps : List ℤ) :
    (sortedPriorities ps).Sorted (· < ·) := by
  unfold sortedPriorities
  induction ps with
  | nil => simp
  | cons p ps ih => exact sorted_insertPriority p _ ih

/-- Membership in the distinct-priority list. -/
theorem mem_sortedPriorities (ps : List ℤ) (q : ℤ) :
    q ∈ sortedPriorities ps ↔ q ∈ ps := by
  unfold sortedPriorities
  induction ps with
  | nil => simp
  | cons p ps ih =>
    rw [List.foldr_cons, mem_insertPriority, ih, List.mem_cons]

/-- The distinct-priority list has no duplicates. -/
theorem sortedPriorities_nodup (ps : List ℤ) :
    (sortedPriorities ps).Nodup :=
  (sortedPriorities_sorted ps).nodup

/-- Grouping a list by the distinct values of a key and concatenating the
groups permutes the list. -/
theorem map_filter_join_perm :
    ∀ (ds : List ℤ) (l : List MSource), ds.Nodup →
      (∀ x ∈ l, x.priority ∈ ds) →
      ((ds.map (fun p => l.filter (fun s => s.priority = p))).flatten).Perm l := by
  intro ds
  induction ds with
  | nil =>
    intro l _ hcov
    have hl : l = [] :=
      List.eq_nil_iff_forall_not_mem.mpr (fun x hx => by simpa using hcov x hx)
    simp [hl]
  | cons d ds ih =>
    intro l hnd hcov
    rw [List.map_cons, List.flatten_cons]
    have hne : ∀ p ∈ ds, p ≠ d := by
      intro p hp hpd
      exact (List.nodup_cons.mp hnd).1 (hpd ▸ hp)
    have hstep : ∀ p ∈ ds,
        l.filter (fun s => s.priority = p) =
          (l.filter (fun s => !decide (s.priority = d))).filter
            (fun s => s.priority = p) := by
      intro p hp
      rw [List.filter_filter]
      apply List.filter_congr
      intro x _
      by_cases hxp : x.priority = p
      · have hxd : ¬ x.priority = d := by
          rw [hxp]
          exact hne p hp
        simp [hxp, hxd, hne p hp]
      · simp [hxp]
    rw [List.map_congr_left hstep]
    have ihp := ih (l.filter (fun s => !decide (s.priority = d)))
      (List.nodup_cons.mp hnd).2 ?cov
    · exact (List.Perm.append_left _ ihp).trans
        (List.filter_append_perm (fun s => decide (s.priority = d)) l)
    case cov =>
      intro x hx
      rw [List.mem_filter] at hx
      rcases List.mem_cons.mp (hcov x hx.1) with hxd | hxds
      · exfalso
        revert hx
        simp [hxd]
      · exact hxds

/-- The tiers partition the enabled sources (up to order). -/
theorem tiersOf_join_perm (sources : List MSource) :
    ((tiersOf sources).flatten).Perm (enabledSources sources) := by
  unfold tiersOf
  exact map_filter_join_perm _ _ (sortedPriorities_nodup _)
    (fun x hx => (mem_sortedPriorities _ _).mpr
      (List.mem_map_of_mem (fun s => s.priority) hx))

/-! ### Tier processing and the result dict -/

/-- Tier results are keyed by the tier's source names, in task order. -/
theorem processTierList_fst (cfg : FilterConfig) (now : ℚ) (hb : Nat)
    (tier : List MSource) : ∀ st : WorldState,
    (processTierList cfg now hb st tier).1.map Prod.fst
      = tier.map MSource.name := by
  induction tier with
  | nil => intro st; rfl
  | cons s rest ih =>
    intro st
    simp only [processTierList, List.map_cons, List.cons.injEq]
    exact ⟨trivial, ih _⟩

/-- Upserting an absent key appends the pair. -/
theorem dictUpsert_append {α : Type} (m : List (String × α)) (k : String)
    (v : α) (h : ∀ p ∈ m, p.1 ≠ k) : dictUpsert m k v = m ++ [(k, v)] := by
  unfold dictUpsert
  rw [if_neg]
  intro hc
  rw [List.any_eq_true] at hc
  obtain ⟨p, hp, hpk⟩ := hc
  exact h p hp (by simpa using hpk)

/-- Updating with fresh, duplicate-free keys appends the pairs. -/
theorem dictUpdate_append {α : Type} (prs : List (String × α)) :
    ∀ m : List (String × α), (∀ p ∈ prs, ∀ q ∈ m, q.1 ≠ p.1) →
      (prs.map Prod.fst).Nodup → dictUpdate m prs = m ++ prs := by
  induction prs with
  | nil => intro m _ _; simp [dictUpdate]
  | cons p prs ih =>
    intro m hdisj hnd
    have h1 : dictUpdate m (p :: prs) = dictUpdate (dictUpsert m p.1 p.2) prs :=
      rfl
    rw [h1,
      dictUpsert_append m p.1 p.2
        (fun q hq => hdisj p (List.mem_cons_self p prs) q hq)]
    rw [List.map_cons, List.nodup_cons] at hnd
    rw [ih (m ++ [(p.1, p.2)]) ?_ hnd.2]
    · rw [List.append_assoc]
      rfl
    · intro q hq r hr
      rcases List.mem_append.mp hr with hr | hr
      · exact hdisj q (List.mem_cons_of_mem p hq) r hr
      · rcases List.mem_singleton.mp hr with rfl
        intro hqk
        exact hnd.1 (hqk ▸ List.mem_map_of_mem Prod.fst hq)

/-- The tier loop of the run: under duplicate-free names, the result map
accumulates each tier's pairs by appending, and the running total adds
each tier's `new_articles` sum. -/
theorem runTiers_spec (cfg : FilterConfig) (now : ℚ) (hb : Nat)
    (TS : List (List MSource)) :
    ∀ (m : List (String × SourceResult)) (n : Nat) (st : WorldState),
      (m.map Prod.fst ++ (TS.flatten).map MSource.name).Nodup →
      ∃ prs, (runTiers cfg now hb (m, n) st TS).1.1 = m ++ prs
        ∧ prs.map Prod.fst = (TS.flatten).map MSource.name
        ∧ (runTiers cfg now hb (m, n) st TS).1.2
            = n + (prs.map (fun p => p.2.new_articles)).sum := by
  induction TS with
  | nil =>
    intro m n st _
    exact ⟨[], by simp [runTiers], by simp, by simp [runTiers]⟩
  | cons tier rest ih =>
    intro m n st hnd
    rw [List.flatten_cons, List.map_append, ← List.append_assoc] at hnd
    rw [List.nodup_append] at hnd
    have hnd2 := hnd.1
    rw [List.nodup_append] at hnd2
    have htp := processTierList_fst cfg now hb tier st
    have htpnd : ((processTierList cfg now hb st tier).1.map Prod.fst).Nodup := by
      rw [htp]; exact hnd2.2.1
    have hdict0 : dictUpdate ([] : List (String × SourceResult))
        (processTierList cfg now hb st tier).1 =
        (processTierList cfg now hb st tier).1 := by
      rw [dictUpdate_append _ [] (by intro p _ q hq; cases hq) htpnd]
      rfl
    have hdictm : dictUpdate m (processTierList cfg now hb st tier).1 =
        m ++ (processTierList cfg now hb st tier).1 := by
      refine dictUpdate_append _ m ?_ htpnd
      intro p hp q hq
      intro hqp
      refine hnd2.2.2 (hqp ▸ List.mem_map_of_mem Prod.fst hq) ?_
      rw [← htp]
      exact List.mem_map_of_mem Prod.fst hp
    have hstep : runTiers cfg now hb (m, n) st (tier :: rest) =
        runTiers cfg now hb
          (m ++ (processTierList cfg now hb st tier).1,
            n + ((processTierList cfg now hb st tier).1.map
              (fun p => p.2.new_articles)).sum)
          (processTierList cfg now hb st tier).2 rest := by
      show runTiers cfg now hb
          (dictUpdate m (dictUpdate [] (processTierList cfg now hb st tier).1),
            n + ((dictUpdate [] (processTierList cfg now hb st tier).1).map
              (fun p => p.2.new_articles)).sum)
          (processTierList cfg now hb st tier).2 rest = _
      rw [hdict0, hdictm]
    have hndrec : ((m ++ (processTierList cfg now hb st tier).1).map Prod.fst
        ++ (rest.flatten).map MSource.name).Nodup := by
      rw [List.map_append, htp]
      rw [List.nodup_append]
      refine ⟨List.nodup_append.mpr ⟨hnd2.1, hnd2.2.1, hnd2.2.2⟩, hnd.2.1, ?_⟩
      intro x hx
      rcases List.mem_append.mp hx with hx | hx
      · exact hnd.2.2 (List.mem_append_left _ hx)
      · exact hnd.2.2 (List.mem_append_right _ hx)
    obtain ⟨prs, h1, h2, h3⟩ := ih
      (m ++ (processTierList cfg now hb st tier).1)
      (n + ((processTierList cfg now hb st tier).1.map
        (fun p => p.2.new_articles)).sum)
      (processTierList cfg now hb st tier).2 hndrec
    refine ⟨(processTierList cfg now hb st tier).1 ++ prs, ?_, ?_, ?_⟩
    · rw [hstep, h1, List.append_assoc]
    · rw [List.map_append, htp, h2, List.flatten_cons, List.map_append]
    · rw [hstep, h3, List.map_append, List.sum_append]
      omega

/-- C3: the run result has exactly one entry per attempted enabled
source (its key list is a permutation of the enabled sources' names,
which list each source once), and `total_new_articles` is the sum of the
entries' `new_articles` counts (failure entries carrying 0). -/
theorem c3_run_result_aggregation (cfg : FilterConfig) (now : ℚ)
    (st : WorldState) (sources : List MSource) (hb : Nat)
    (hnd : ((enabledSources sources).map MSource.name).Nodup) :
    ((run_coordinated_scraping cfg now st sources hb).1.source_results.map
        Prod.fst).Perm ((enabledSources sources).map MSource.name)
    ∧ (run_coordinated_scraping cfg now st sources hb).1.total_new_articles
      = ((run_coordinated_scraping cfg now st sources hb).1.source_results.map
          (fun p => p.2.new_articles)).sum := by
  have hperm : ((((tiersOf sources).flatten).map MSource.name)).Perm
      ((enabledSources sources).map MSource.name) :=
    (tiersOf_join_perm sources).map MSource.name
  have hjnd : (((tiersOf sources).flatten).map MSource.name).Nodup :=
    hperm.nodup_iff.mpr hnd
  obtain ⟨prs, h1, h2, h3⟩ := runTiers_spec cfg now hb (tiersOf sources) [] 0 st
    (by simpa using hjnd)
  have hres : (run_coordinated_scraping cfg now st sources hb).1.source_results
      = prs := by
    show (runTiers cfg now hb ([], 0) st (tiersOf sources)).1.1 = prs
    rw [h1, List.nil_append]
  constructor
  · rw [hres, h2]
    exact hperm
  · have htot :
        (run_coordinated_scraping cfg now st sources hb).1.total_new_articles
          = (runTiers cfg now hb ([], 0) st (tiersOf sources)).1.2 := rfl
    rw [htot, h3, hres]
    omega

/-- C3 witness: two enabled sources with distinct names, in different
tiers; the run's key list is a permutation of their names. -/
theorem c3_run_result_aggregation_witness :
    ((enabledSources [srcA, srcB]).map MSource.name).Nodup ∧
    ((run_coordinated_scraping cfgW 2000 {} [srcA, srcB] 24).1.source_results.map
        Prod.fst).Perm ((enabledSources [srcA, srcB]).map MSource.name) :=
  ⟨by decide,
   (c3_run_result_aggregation cfgW 2000 {} [srcA, srcB] 24 (by decide)).1⟩

/-- C1 witness: saving a fresh article twice yields `new = 1` then
`duplicates = 1`. -/
theorem c1_dedup_on_write_witness :
    artOk.source_type = some .rss ∧ conflicts [] artOk = false ∧
    (save_article_batch [] [artOk]).1 = ⟨1, 0, 0⟩ ∧
    (save_article_batch (save_article_batch [] [artOk]).2 [artOk]).1 =
      ⟨0, 1, 0⟩ :=
  ⟨rfl, rfl, ((c1_dedup_on_write [] artOk .rss rfl).2.2 rfl).1,
   ((c1_dedup_on_write [] artOk .rss rfl).2.2 rfl).2.1⟩

/-! ### Failure isolation -/

/-- A failing source's pipeline yields exactly the failure entry of its
message and leaves the shared state untouched. -/
theorem scrape_fail (cfg : FilterConfig) (now : ℚ) (hb : Nat)
    (s : MSource) (msg : String) (hf : failsWith s.behavior = some msg) :
    ∀ st, scrape_and_process_source cfg now hb st s = (failedResult msg, st) := by
  intro st
  cases hbv : s.behavior with
  | createFails =>
    simp only [hbv, failsWith, Option.some.injEq] at hf
    simp [scrape_and_process_source, hbv, ← hf]
  | validateFails =>
    simp only [hbv, failsWith, Option.some.injEq] at hf
    simp [scrape_and_process_source, hbv, ← hf]
  | raises m =>
    simp only [hbv, failsWith, Option.some.injEq] at hf
    simp [scrape_and_process_source, hbv, ← hf]
  | scrapes arts =>
    simp [hbv, failsWith] at hf

/-- A failing source contributes its failure entry to its tier's result
pairs. -/
theorem processTierList_mem_fail (cfg : FilterConfig) (now : ℚ) (hb : Nat)
    (s : MSource) (msg : String) (hf : failsWith s.behavior = some msg)
    (tier : List MSource) :
    ∀ st, s ∈ tier →
      (s.name, failedResult msg) ∈ (processTierList cfg now hb st tier).1 := by
  induction tier with
  | nil => intro st h; cases h
  | cons x rest ih =>
    intro st hmem
    rcases List.mem_cons.mp hmem with rfl | hmem
    · simp only [processTierList, scrape_fail cfg now hb s msg hf st]
      exact List.mem_cons_self _ _
    · simp only [processTierList]
      exact List.mem_cons_of_mem _ (ih _ hmem)

/-- In an association list with duplicate-free keys, lookup of a member
pair's key returns its value. -/
theorem lookup_of_mem_nodup {α : Type} (k : String) (v : α) :
    ∀ l : List (String × α), (l.map Prod.fst).Nodup → (k, v) ∈ l →
      l.lookup k = some v := by
  intro l
  induction l with
  | nil => intro _ h; cases h
  | cons p rest ih =>
    intro hnd hm
    rw [List.map_cons, List.nodup_cons] at hnd
    rcases List.mem_cons.mp hm with rfl | hm
    · simp [List.lookup]
    · have hk : ¬ k = p.1 := by
        intro hk
        exact hnd.1 (hk ▸ List.mem_map_of_mem Prod.fst hm)
      have : (k == p.1) = false := by
        rw [beq_eq_false_iff_ne]
        exact hk
      rw [List.lookup, this]
      exact ih hnd.2 hm

/-- One step of the tier loop, under duplicate-free keys: the tier's
pairs are appended to the accumulator. -/
theorem runTiers_cons (cfg : FilterConfig) (now : ℚ) (hb : Nat)
    (m : List (String × SourceResult)) (n : Nat) (st : WorldState)
    (tier : List MSource) (rest : List (List MSource))
    (hnd : (m.map Prod.fst ++ tier.map MSource.name).Nodup) :
    runTiers cfg now hb (m, n) st (tier :: rest) =
      runTiers cfg now hb
        (m ++ (processTierList cfg now hb st tier).1,
          n + ((processTierList cfg now hb st tier).1.map
            (fun p => p.2.new_articles)).sum)
        (processTierList cfg now hb st tier).2 rest := by
  rw [List.nodup_append] at hnd
  have htp := processTierList_fst cfg now hb tier st
  have htpnd : ((processTierList cfg now hb st tier).1.map Prod.fst).Nodup := by
    rw [htp]; exact hnd.2.1
  have hdict0 : dictUpdate ([] : List (String × SourceResult))
      (processTierList cfg now hb st tier).1 =
      (processTierList cfg now hb st tier).1 := by
    rw [dictUpdate_append _ [] (by intro p _ q hq; cases hq) htpnd]
    rfl
  have hdictm : dictUpdate m (processTierList cfg now hb st tier).1 =
      m ++ (processTierList cfg now hb st tier).1 := by
    refine dictUpdate_append _ m ?_ htpnd
    intro p hp q hq hqp
    refine hnd.2.2 (hqp ▸ List.mem_map_of_mem Prod.fst hq) ?_
    rw [← htp]
    exact List.mem_map_of_mem Prod.fst hp
  show runTiers cfg now hb
      (dictUpdate m (dictUpdate [] (processTierList cfg now hb st tier).1),
        n + ((dictUpdate [] (processTierList cfg now hb st tier).1).map
          (fun p => p.2.new_articles)).sum)
      (processTierList cfg now hb st tier).2 rest = _
  rw [hdict0, hdictm]

/-- A failing source in some tier of a run with duplicate-free names
ends up with its failure entry in the final result map. -/
theorem runTiers_mem_fail (cfg : FilterConfig) (now : ℚ) (hb : Nat)
    (s : MSource) (msg : String) (hf : failsWith s.behavior = some msg)
    (TS : List (List MSource)) :
    ∀ (m : List (String × SourceResult)) (n : Nat) (st : WorldState),
      (m.map Prod.fst ++ (TS.flatten).map MSource.name).Nodup →
      (∃ tier ∈ TS, s ∈ tier) →
      (s.name, failedResult msg) ∈ (runTiers cfg now hb (m, n) st TS).1.1 := by
  induction TS with
  | nil =>
    intro m n st _ h
    obtain ⟨tier, ht, _⟩ := h
    cases ht
  | cons tier rest ih =>
    intro m n st hnd hmem
    rw [List.flatten_cons, List.map_append, ← List.append_assoc] at hnd
    have hndmt : (m.map Prod.fst ++ tier.map MSource.name).Nodup :=
      (List.nodup_append.mp hnd).1
    rw [runTiers_cons cfg now hb m n st tier rest hndmt]
    have htp := processTierList_fst cfg now hb tier st
    have hndrec : ((m ++ (processTierList cfg now hb st tier).1).map Prod.fst
        ++ (rest.flatten).map MSource.name).Nodup := by
      rw [List.map_append, htp]
      exact hnd
    rcases hmem with ⟨tier', ht', hs⟩
    rcases List.mem_cons.mp ht' with rfl | ht'
    · have hpair := processTierList_mem_fail cfg now hb s msg hf tier' st hs
      obtain ⟨prs, h1, _, _⟩ := runTiers_spec cfg now hb rest
        (m ++ (processTierList cfg now hb st tier').1)
        (n + ((processTierList cfg now hb st tier').1.map
          (fun p => p.2.new_articles)).sum)
        (processTierList cfg now hb st tier').2 hndrec
      rw [h1]
      exact List.mem_append_left _ (List.mem_append_right _ hpair)
    · exact ih _ _ _ hndrec ⟨tier', ht', hs⟩

/-- Neutralising preserves a source's name. -/
theorem neutralizeOne_name (key : String) (x : MSource) :
    (neutralizeOne key x).name = x.name := by
  unfold neutralizeOne
  by_cases h : x.name = key <;> simp [h]

/-- Neutralising preserves the enabled flag. -/
theorem neutralizeOne_enabled (key : String) (x : MSource) :
    (neutralizeOne key x).enabled = x.enabled := by
  unfold neutralizeOne
  by_cases h : x.name = key <;> simp [h]

/-- Neutralising preserves the priority. -/
theorem neutralizeOne_priority (key : String) (x : MSource) :
    (neutralizeOne key x).priority = x.priority := by
  unfold neutralizeOne
  by_cases h : x.name = key <;> simp [h]

/-- Neutralising commutes with the enabled filter. -/
theorem enabledSources_neutralize (key : String) (sources : List MSource) :
    enabledSources (neutralize key sources)
      = (enabledSources sources).map (neutralizeOne key) := by
  unfold enabledSources neutralize
  rw [List.filter_map]
  congr 1
  apply List.filter_congr
  intro x _
  exact neutralizeOne_enabled key x

/-- Neutralising preserves the priority multiset. -/
theorem map_priority_neutralize (key : String) (l : List MSource) :
    (l.map (neutralizeOne key)).map (fun s => s.priority)
      = l.map (fun s => s.priority) := by
  rw [List.map_map]
  apply List.map_congr_left
  intro x _
  exact neutralizeOne_priority key x

/-- Neutralising commutes with a priority bucket. -/
theorem bucket_neutralize (key : String) (l : List MSource) (p : ℤ) :
    (l.map (neutralizeOne key)).filter (fun s => s.priority = p)
      = (l.filter (fun s => s.priority = p)).map (neutralizeOne key) := by
  rw [List.filter_map]
  congr 1
  apply List.filter_congr
  intro x _
  simp [neutralizeOne_priority key x, Function.comp]

/-- Neutralising a name maps each tier pointwise, preserving the tier
structure of the run. -/
theorem tiersOf_neutralize (key : String) (sources : List MSource) :
    tiersOf (neutralize key sources)
      = (tiersOf sources).map (List.map (neutralizeOne key)) := by
  unfold tiersOf
  rw [enabledSources_neutralize, map_priority_neutralize, List.map_map]
  apply List.map_congr_left
  intro p _
  exact bucket_neutralize key (enabledSources sources) p

/-- A neutralised source scrapes nothing: an empty success entry, state
untouched. -/
theorem scrape_neutralized (cfg : FilterConfig) (now : ℚ) (hb : Nat)
    (key : String) (x : MSource) (hx : x.name = key) :
    ∀ st, scrape_and_process_source cfg now hb st (neutralizeOne key x)
      = ({ success := true }, st) := by
  intro st
  unfold neutralizeOne
  rw [if_pos hx]
  rfl

/-- Processing a tier in which every source named `key` fails relates to
processing its neutralised tier: same keys, same values away from `key`,
same new-article counts, and the same final shared state. -/
theorem processTierList_neutralize (cfg : FilterConfig) (now : ℚ) (hb : Nat)
    (key : String) :
    ∀ tier : List MSource,
      (∀ x ∈ tier, x.name = key → (failsWith x.behavior).isSome) →
      ∀ st, List.Forall₂ (tierRel key)
          (processTierList cfg now hb st tier).1
          (processTierList cfg now hb st (tier.map (neutralizeOne key))).1
        ∧ (processTierList cfg now hb st tier).2
          = (processTierList cfg now hb st (tier.map (neutralizeOne key))).2 := by
  intro tier
  induction tier with
  | nil => intro _ st; exact ⟨List.Forall₂.nil, rfl⟩
  | cons x rest ih =>
    intro hfail st
    obtain ⟨ihf, ihs⟩ := ih (fun y hy => hfail y (List.mem_cons_of_mem x hy)) st
    by_cases hx : x.name = key
    · obtain ⟨msg, hmsg⟩ := Option.isSome_iff_exists.mp
        (hfail x (List.mem_cons_self x rest) hx)
      have h1 := scrape_fail cfg now hb x msg hmsg st
      have h2 := scrape_neutralized cfg now hb key x hx st
      simp only [List.map_cons, processTierList, h1, h2]
      exact ⟨List.Forall₂.cons
        ⟨(neutralizeOne_name key x).symm, fun hne => absurd hx hne, rfl⟩
        ihf, ihs⟩
    · have h3 : neutralizeOne key x = x := by
        unfold neutralizeOne
        rw [if_neg hx]
      simp only [List.map_cons, processTierList, h3]
      obtain ⟨ihf', ihs'⟩ := ih (fun y hy => hfail y (List.mem_cons_of_mem x hy))
        (scrape_and_process_source cfg now hb st x).2
      exact ⟨List.Forall₂.cons ⟨rfl, fun _ => rfl, rfl⟩ ihf', ihs'⟩

/-- Related entry lists have identical key lists. -/
theorem forall2_keys (key : String) :
    ∀ {l l' : List (String × SourceResult)},
      List.Forall₂ (tierRel key) l l' → l.map Prod.fst = l'.map Prod.fst := by
  intro l l' h
  induction h with
  | nil => rfl
  | cons hpq _ ih => simp [ih, hpq.1]

/-- Related entry lists have identical new-article sums. -/
theorem forall2_sum_new (key : String) :
    ∀ {l l' : List (String × SourceResult)},
      List.Forall₂ (tierRel key) l l' →
      (l.map (fun p => p.2.new_articles)).sum
        = (l'.map (fun p => p.2.new_articles)).sum := by
  intro l l' h
  induction h with
  | nil => rfl
  | cons hpq _ ih => simp [ih, hpq.2.2]

/-- Upserting related values at the same key preserves relatedness. -/
theorem dictUpsert_forall2 (key k : String) (v v' : SourceResult)
    (hv : tierRel key (k, v) (k, v')) :
    ∀ {m m' : List (String × SourceResult)},
      List.Forall₂ (tierRel key) m m' →
      List.Forall₂ (tierRel key) (dictUpsert m k v) (dictUpsert m' k v') := by
  intro m m' hm
  unfold dictUpsert
  have hany : m'.any (fun p => p.1 == k) = m.any (fun p => p.1 == k) := by
    induction hm with
    | nil => rfl
    | cons hpq _ ih => simp [List.any_cons, ih, hpq.1]
  rw [hany]
  by_cases hb : m.any (fun p => p.1 == k) = true
  · rw [if_pos hb, if_pos hb]
    clear hany hb
    induction hm with
    | nil => exact List.Forall₂.nil
    | @cons a b l1 l2 hpq htail ih =>
      simp only [List.map_cons]
      refine List.Forall₂.cons ?_ ih
      rw [← hpq.1]
      by_cases hpk : (a.1 == k) = true
      · rw [if_pos hpk, if_pos hpk]
        exact hv
      · rw [Bool.not_eq_true] at hpk
        simp only [hpk, Bool.false_eq_true, if_false]
        exact hpq
  · rw [if_neg hb, if_neg hb]
    exact List.rel_append hm (List.Forall₂.cons hv List.Forall₂.nil)

/-- Updating related maps with related pair lists preserves
relatedness. -/
theorem dictUpdate_forall2 (key : String) :
    ∀ {prs prs' : List (String × SourceResult)},
      List.Forall₂ (tierRel key) prs prs' →
      ∀ {m m' : List (String × SourceResult)},
        List.Forall₂ (tierRel key) m m' →
        List.Forall₂ (tierRel key) (dictUpdate m prs) (dictUpdate m' prs') := by
  intro prs prs' h
  induction h with
  | nil => intro m m' hm; exact hm
  | @cons a b l1 l2 hpq htail ih =>
    intro m m' hm
    show List.Forall₂ (tierRel key)
      (dictUpdate (dictUpsert m a.1 a.2) l1)
      (dictUpdate (dictUpsert m' b.1 b.2) l2)
    rw [← hpq.1]
    exact ih (dictUpsert_forall2 key a.1 a.2 b.2 ⟨rfl, hpq.2.1, hpq.2.2⟩ hm)

/-- Related maps agree on lookups away from the neutralised key. -/
theorem lookup_forall2 (key t : String) (hne : t ≠ key) :
    ∀ {l l' : List (String × SourceResult)},
      List.Forall₂ (tierRel key) l l' → l.lookup t = l'.lookup t := by
  intro l l' h
  induction h with
  | nil => rfl
  | @cons a b l1 l2 hpq htail ih =>
    obtain ⟨k1, v1⟩ := a
    obtain ⟨k2, v2⟩ := b
    have hk : k1 = k2 := hpq.1
    subst hk
    by_cases ht : (t == k1) = true
    · have htk : t = k1 := by simpa using ht
      have hv : v1 = v2 := hpq.2.1 (by simpa [← htk] using hne)
      simp [List.lookup, ht, hv]
    · rw [Bool.not_eq_true] at ht
      simp only [List.lookup, ht]
      exact ih

/-- The result maps of a run and of the run with a failing name
neutralised are related pairwise. -/
theorem runTiers_neutralize (cfg : FilterConfig) (now : ℚ) (hb : Nat)
    (key : String) :
    ∀ TS : List (List MSource),
      (∀ tier ∈ TS, ∀ x ∈ tier, x.name = key → (failsWith x.behavior).isSome) →
      ∀ (m m' : List (String × SourceResult)) (n : Nat) (st : WorldState),
        List.Forall₂ (tierRel key) m m' →
        List.Forall₂ (tierRel key)
          (runTiers cfg now hb (m, n) st TS).1.1
          (runTiers cfg now hb (m', n) st
            (TS.map (List.map (neutralizeOne key)))).1.1 := by
  intro TS
  induction TS with
  | nil => intro _ m m' n st hm; exact hm
  | cons tier rest ih =>
    intro hfail m m' n st hm
    obtain ⟨hf2, hs2⟩ := processTierList_neutralize cfg now hb key tier
      (hfail tier (List.mem_cons_self tier rest)) st
    have hdict : List.Forall₂ (tierRel key)
        (dictUpdate [] (processTierList cfg now hb st tier).1)
        (dictUpdate [] (processTierList cfg now hb st
          (tier.map (neutralizeOne key))).1) :=
      dictUpdate_forall2 key hf2 List.Forall₂.nil
    have hsum : ((dictUpdate [] (processTierList cfg now hb st tier).1).map
          (fun p => p.2.new_articles)).sum
        = ((dictUpdate [] (processTierList cfg now hb st
            (tier.map (neutralizeOne key))).1).map
          (fun p => p.2.new_articles)).sum :=
      forall2_sum_new key hdict
    show List.Forall₂ (tierRel key)
      (runTiers cfg now hb
        (dictUpdate m (dictUpdate [] (processTierList cfg now hb st tier).1),
          n + ((dictUpdate [] (processTierList cfg now hb st tier).1).map
            (fun p => p.2.new_articles)).sum)
        (processTierList cfg now hb st tier).2 rest).1.1
      (runTiers cfg now hb
        (dictUpdate m' (dictUpdate [] (processTierList cfg now hb st
            (tier.map (neutralizeOne key))).1),
          n + ((dictUpdate [] (processTierList cfg now hb st
              (tier.map (neutralizeOne key))).1).map
            (fun p => p.2.new_articles)).sum)
        (processTierList cfg now hb st (tier.map (neutralizeOne key))).2
        (rest.map (List.map (neutralizeOne key)))).1.1
    rw [← hsum, ← hs2]
    exact ih (fun t ht => hfail t (List.mem_cons_of_mem tier ht)) _ _ _ _
      (dictUpdate_forall2 key hdict hm)

/-! ### Total failure -/

/-- A tier whose every source fails yields only failure entries and
leaves the shared state untouched. -/
theorem processTierList_all_fail (cfg : FilterConfig) (now : ℚ) (hb : Nat) :
    ∀ tier : List MSource, (∀ x ∈ tier, (failsWith x.behavior).isSome) →
      ∀ st, (∀ p ∈ (processTierList cfg now hb st tier).1,
          p.2.success = false ∧ p.2.new_articles = 0)
        ∧ (processTierList cfg now hb st tier).2 = st := by
  intro tier
  induction tier with
  | nil => intro _ st; exact ⟨fun p hp => absurd hp (List.not_mem_nil p), rfl⟩
  | cons x rest ih =>
    intro hfail st
    obtain ⟨msg, hmsg⟩ := Option.isSome_iff_exists.mp
      (hfail x (List.mem_cons_self x rest))
    have h1 := scrape_fail cfg now hb x msg hmsg st
    obtain ⟨ihf, ihs⟩ := ih (fun y hy => hfail y (List.mem_cons_of_mem x hy)) st
    simp only [processTierList, h1]
    refine ⟨?_, ihs⟩
    intro p hp
    rcases List.mem_cons.mp hp with rfl | hp
    · exact ⟨rfl, rfl⟩
    · exact ihf p hp

/-- A value property of every entry survives a dict upsert whose value
has it. -/
theorem dictUpsert_forall_values {α : Type} (P : α → Prop)
    (m : List (String × α)) (k : String) (v : α)
    (hm : ∀ p ∈ m, P p.2) (hv : P v) :
    ∀ p ∈ dictUpsert m k v, P p.2 := by
  unfold dictUpsert
  by_cases hb : m.any (fun p => p.1 == k) = true
  · rw [if_pos hb]
    intro p hp
    obtain ⟨q, hq, hqp⟩ := List.mem_map.mp hp
    by_cases hqk : (q.1 == k) = true
    · rw [if_pos hqk] at hqp
      rw [← hqp]
      exact hv
    · rw [Bool.not_eq_true] at hqk
      simp only [hqk, Bool.false_eq_true, if_false] at hqp
      rw [← hqp]
      exact hm q hq
  · rw [if_neg hb]
    intro p hp
    rcases List.mem_append.mp hp with hp | hp
    · exact hm p hp
    · rcases List.mem_singleton.mp hp with rfl
      exact hv

/-- A value property of every entry survives a dict update whose values
all have it. -/
theorem dictUpdate_forall_values {α : Type} (P : α → Prop) :
    ∀ (prs : List (String × α)) (m : List (String × α)),
      (∀ p ∈ m, P p.2) → (∀ p ∈ prs, P p.2) →
      ∀ p ∈ dictUpdate m prs, P p.2 := by
  intro prs
  induction prs with
  | nil => intro m hm _; exact hm
  | cons q prs ih =>
    intro m hm hq
    exact ih (dictUpsert m q.1 q.2)
      (dictUpsert_forall_values P m q.1 q.2 hm
        (hq q (List.mem_cons_self q prs)))
      (fun p hp => hq p (List.mem_cons_of_mem q hp))

/-- A run whose every source fails produces only failure entries and a
zero running total. -/
theorem runTiers_all_fail (cfg : FilterConfig) (now : ℚ) (hb : Nat) :
    ∀ TS : List (List MSource),
      (∀ tier ∈ TS, ∀ x ∈ tier, (failsWith x.behavior).isSome) →
      ∀ (m : List (String × SourceResult)) (n : Nat) (st : WorldState),
        (∀ p ∈ m, p.2.success = false ∧ p.2.new_articles = 0) →
        (∀ p ∈ (runTiers cfg now hb (m, n) st TS).1.1,
            p.2.success = false ∧ p.2.new_articles = 0)
        ∧ (runTiers cfg now hb (m, n) st TS).1.2 = n := by
  intro TS
  induction TS with
  | nil => intro _ m n st hm; exact ⟨hm, rfl⟩
  | cons tier rest ih =>
    intro hfail m n st hm
    obtain ⟨htier, hstate⟩ := processTierList_all_fail cfg now hb tier
      (hfail tier (List.mem_cons_self tier rest)) st
    have hdict : ∀ p ∈ dictUpdate ([] : List (String × SourceResult))
        (processTierList cfg now hb st tier).1,
        p.2.success = false ∧ p.2.new_articles = 0 :=
      dictUpdate_forall_values
        (fun r => r.success = false ∧ r.new_articles = 0)
        (processTierList cfg now hb st tier).1 []
        (fun p hp => absurd hp (List.not_mem_nil p)) htier
    have hsum : ((dictUpdate [] (processTierList cfg now hb st tier).1).map
        (fun p => p.2.new_articles)).sum = 0 := by
      apply List.sum_eq_zero
      intro x hx
      obtain ⟨p, hp, hpx⟩ := List.mem_map.mp hx
      rw [← hpx]
      exact (hdict p hp).2
    have hstep : runTiers cfg now hb (m, n) st (tier :: rest) =
        runTiers cfg now hb
          (dictUpdate m (dictUpdate [] (processTierList cfg now hb st tier).1),
            n)
          (processTierList cfg now hb st tier).2 rest := by
      show runTiers cfg now hb
          (dictUpdate m (dictUpdate [] (processTierList cfg now hb st tier).1),
            n + ((dictUpdate [] (processTierList cfg now hb st tier).1).map
              (fun p => p.2.new_articles)).sum)
          (processTierList cfg now hb st tier).2 rest = _
      rw [hsum, Nat.add_zero]
    rw [hstep]
    exact ih (fun t ht => hfail t (List.mem_cons_of_mem tier ht)) _ n _
      (dictUpdate_forall_values
        (fun r => r.success = false ∧ r.new_articles = 0)
        (dictUpdate [] (processTierList cfg now hb st tier).1) m hm hdict)

/-! ### Tier membership -/

/-- Every enabled source lies in some tier. -/
theorem mem_tiersOf (sources : List MSource) (s : MSource)
    (hs : s ∈ enabledSources sources) :
    ∃ tier ∈ tiersOf sources, s ∈ tier := by
  refine ⟨(enabledSources sources).filter (fun x => x.priority = s.priority),
    ?_, ?_⟩
  · unfold tiersOf
    apply List.mem_map_of_mem
    rw [mem_sortedPriorities]
    exact List.mem_map_of_mem (fun x => x.priority) hs
  · rw [List.mem_filter]
    exact ⟨hs, by simp⟩

/-- Every tier member is one of the configured sources. -/
theorem mem_of_mem_tiersOf (sources : List MSource) (tier : List MSource)
    (ht : tier ∈ tiersOf sources) (x : MSource) (hx : x ∈ tier) :
    x ∈ sources := by
  unfold tiersOf at ht
  obtain ⟨p, _, rfl⟩ := List.mem_map.mp ht
  exact List.mem_of_mem_filter (List.mem_of_mem_filter hx)

/-- C2: per-source error isolation.  (i) A failing source's pipeline is
caught and converted into a failure entry carrying its message, with the
shared store and dedup cache untouched.  (ii) In a run with unique
names, that failure entry is the source's entry in the result map.
(iii) Every other source's entry is unaffected by the failure: it equals
the entry of the run in which the failing name is neutralised to "scraped
nothing".  (iv) Even when every source fails, the run completes with an
all-failed result map and a zero article total. -/
theorem c2_error_isolation (cfg : FilterConfig) (now : ℚ) (hb : Nat)
    (st : WorldState) (sources : List MSource) (s : MSource) (msg : String)
    (hf : failsWith s.behavior = some msg) :
    (∀ st0, scrape_and_process_source cfg now hb st0 s = (failedResult msg, st0))
    ∧ (s ∈ sources → s.enabled = true →
        ((enabledSources sources).map MSource.name).Nodup →
        ((run_coordinated_scraping cfg now st sources hb).1.source_results).lookup
            s.name
          = some (failedResult msg))
    ∧ ((∀ x ∈ sources, x.name = s.name → (failsWith x.behavior).isSome) →
        ∀ t, t ≠ s.name →
          ((run_coordinated_scraping cfg now st sources hb).1.source_results).lookup t
            = ((run_coordinated_scraping cfg now st (neutralize s.name sources)
                hb).1.source_results).lookup t)
    ∧ ((∀ x ∈ sources, (failsWith x.behavior).isSome) →
        (∀ p ∈ (run_coordinated_scraping cfg now st sources hb).1.source_results,
            p.2.success = false ∧ p.2.new_articles = 0)
        ∧ (run_coordinated_scraping cfg now st sources hb).1.total_new_articles
            = 0) := by
  refine ⟨scrape_fail cfg now hb s msg hf, ?_, ?_, ?_⟩
  · intro hmem henb hnd
    have hse : s ∈ enabledSources sources := by
      unfold enabledSources
      rw [List.mem_filter]
      exact ⟨hmem, by rw [henb]⟩
    have hperm : ((((tiersOf sources).flatten).map MSource.name)).Perm
        ((enabledSources sources).map MSource.name) :=
      (tiersOf_join_perm sources).map MSource.name
    have hjnd : (((tiersOf sources).flatten).map MSource.name).Nodup :=
      hperm.nodup_iff.mpr hnd
    have hpair := runTiers_mem_fail cfg now hb s msg hf (tiersOf sources)
      [] 0 st (by simpa using hjnd) (mem_tiersOf sources s hse)
    obtain ⟨prs, h1, h2, _⟩ := runTiers_spec cfg now hb (tiersOf sources) [] 0 st
      (by simpa using hjnd)
    show ((runTiers cfg now hb ([], 0) st (tiersOf sources)).1.1).lookup s.name
      = some (failedResult msg)
    apply lookup_of_mem_nodup
    · rw [h1, List.nil_append, h2]
      exact hjnd
    · exact hpair
  · intro hfail t hne
    have hfail2 : ∀ tier ∈ tiersOf sources, ∀ x ∈ tier, x.name = s.name →
        (failsWith x.behavior).isSome :=
      fun tier ht x hx => hfail x (mem_of_mem_tiersOf sources tier ht x hx)
    show ((runTiers cfg now hb ([], 0) st (tiersOf sources)).1.1).lookup t
      = ((runTiers cfg now hb ([], 0) st
          (tiersOf (neutralize s.name sources))).1.1).lookup t
    rw [tiersOf_neutralize]
    exact lookup_forall2 s.name t hne
      (runTiers_neutralize cfg now hb s.name (tiersOf sources) hfail2
        [] [] 0 st List.Forall₂.nil)
  · intro hfail
    have hfail2 : ∀ tier ∈ tiersOf sources, ∀ x ∈ tier,
        (failsWith x.behavior).isSome :=
      fun tier ht x hx => hfail x (mem_of_mem_tiersOf sources tier ht x hx)
    obtain ⟨hall, htot⟩ := runTiers_all_fail cfg now hb (tiersOf sources) hfail2
      [] 0 st (fun p hp => absurd hp (List.not_mem_nil p))
    exact ⟨hall, htot⟩

/-- C2 witness: a source that raises is reported as its own failed entry
in the run's result map. -/
theorem c2_error_isolation_witness :
    failsWith srcB.behavior = some "boom" ∧
    srcB ∈ [srcA, srcB] ∧ srcB.enabled = true ∧
    ((enabledSources [srcA, srcB]).map MSource.name).Nodup ∧
    ((run_coordinated_scraping cfgW 2000 {} [srcA, srcB] 24).1.source_results).lookup
        srcB.name
      = some (failedResult "boom") :=
  ⟨rfl, by simp, rfl, by decide,
   (c2_error_isolation cfgW 2000 24 {} [srcA, srcB] srcB "boom" rfl).2.1
     (by simp) rfl (by decide)⟩

end Scraper
